import Mathlib

/-!
Verification development for the shift-team-bot topic-summarization pipeline.

The Python sources embedded here are `bot/topic_analyzer.py`, `bot/summary.py`
and `bot/utils.py`.  Python strings are sequences of Unicode code points, so
they are modelled as `List Char` (named `PyStr`); all indexing and slicing in
the sources is by code point, which matches `List` operations exactly.

Unicode-dependent primitives (`str.lower`, the `\w`/`\s` regex classes) are
embedded for the alphabets this code actually manipulates: ASCII plus the
Cyrillic block U+0400..U+04FF (the sources are Ukrainian-language throughout).
-/

/-- Python strings as lists of code points. -/
abbrev PyStr := List Char

/-- `str.lower` restricted to ASCII letters and the Cyrillic block:
`A`-`Z` map down by 32, `А`-`Я` (U+0410..U+042F) map down by 0x20,
`Ѐ`-`Џ` (U+0400..U+040F, which contains Є, І, Ї) map down by 0x50. -/
def pyLowerChar (c : Char) : Char :=
  let v := c.val.toNat
  if 65 ≤ v ∧ v ≤ 90 then Char.ofNat (v + 32)
  else if 0x410 ≤ v ∧ v ≤ 0x42F then Char.ofNat (v + 0x20)
  else if 0x400 ≤ v ∧ v ≤ 0x40F then Char.ofNat (v + 0x50)
  else c

/-- `str.lower` on a whole string. -/
def pyLower (s : PyStr) : PyStr := s.map pyLowerChar

/-- `str.upper` on a single character (inverse ranges of `pyLowerChar`);
used only by `str.capitalize`. -/
def pyUpperChar (c : Char) : Char :=
  let v := c.val.toNat
  if 97 ≤ v ∧ v ≤ 122 then Char.ofNat (v - 32)
  else if 0x430 ≤ v ∧ v ≤ 0x44F then Char.ofNat (v - 0x20)
  else if 0x450 ≤ v ∧ v ≤ 0x45F then Char.ofNat (v - 0x50)
  else c

/-- `str.capitalize`: first character uppercased, the rest lowercased. -/
def pyCapitalize (s : PyStr) : PyStr :=
  match s with
  | [] => []
  | c :: r => pyUpperChar c :: pyLower r

/-- The regex class `\s` (and `str.split()` / `str.strip()` whitespace):
space, tab, newline, carriage return, vertical tab, form feed. -/
def isSpaceCh (c : Char) : Bool :=
  c = ' ' ∨ c = '\t' ∨ c = '\n' ∨ c = '\r' ∨ c = '\x0b' ∨ c = '\x0c'

/-- The regex class `\w` (Unicode word character) restricted to the scripts in
play: ASCII alphanumerics, underscore, and the Cyrillic block U+0400..U+04FF. -/
def isWordCh (c : Char) : Bool :=
  c.isAlphanum ∨ c = '_' ∨ (0x400 ≤ c.val.toNat ∧ c.val.toNat ≤ 0x4FF)

/-- ASCII decimal digit (regex `\d`). -/
def isDigitCh (c : Char) : Bool := '0' ≤ c ∧ c ≤ '9'

/-- `str.strip()`: drop leading and trailing whitespace. -/
def pyStrip (s : PyStr) : PyStr :=
  ((s.dropWhile isSpaceCh).reverse.dropWhile isSpaceCh).reverse

/-- `str.split()` with no separator: split on whitespace runs, no empties.
`acc` holds the characters of the word currently being read, reversed. -/
def pySplitWsAux (acc : PyStr) : PyStr → List PyStr
  | [] => if acc = [] then [] else [acc.reverse]
  | c :: r =>
    if isSpaceCh c then
      if acc = [] then pySplitWsAux [] r else acc.reverse :: pySplitWsAux [] r
    else pySplitWsAux (c :: acc) r

/-- `str.split()` with no separator. -/
def pySplitWs (s : PyStr) : List PyStr := pySplitWsAux [] s

/-- `str.split('\n')`: split at every newline, keeping empty pieces. -/
def pySplitNl : PyStr → List PyStr
  | [] => [[]]
  | c :: r =>
    if c = '\n' then [] :: pySplitNl r
    else
      match pySplitNl r with
      | [] => [[c]]
      | h :: t => (c :: h) :: t

/-- `'\n'.join(parts)`. -/
def joinNl (parts : List PyStr) : PyStr := List.intercalate ['\n'] parts

/-- `' '.join(parts)`. -/
def joinSp (parts : List PyStr) : PyStr := List.intercalate [' '] parts

/-- `str(n)` for a natural number. -/
def pyNat (n : Nat) : PyStr := Nat.toDigits 10 n

/-- `str(i)` for an integer. -/
def pyInt (i : Int) : PyStr :=
  if i < 0 then '-' :: pyNat i.natAbs else pyNat i.toNat

/-!
## Tokenizer (`topic_analyzer.extract_words`, lines 58-73)
-/

/-- `MIN_WORD_LENGTH` (topic_analyzer.py line 52). -/
def MIN_WORD_LENGTH : Nat := 4

/-- `MIN_TOPIC_FREQUENCY` (topic_analyzer.py line 55). -/
def MIN_TOPIC_FREQUENCY : Nat := 1

/-- The `STOP_WORDS` set (topic_analyzer.py lines 32-49), verbatim. -/
def STOP_WORDS : List PyStr :=
  ["і", "та", "або", "але", "що", "як", "для", "від", "до", "на", "з", "по", "про", "за", "при",
   "the", "a", "an", "and", "or", "but", "in", "on", "at", "to", "for", "of", "with", "by", "from",
   "це", "той", "такий", "який", "коли", "де", "чому", "якщо", "хоча", "тому", "тому що",
   "так", "ні", "не", "не", "було", "буде", "є", "був", "була", "були",
   "я", "ти", "він", "вона", "воно", "ми", "ви", "вони",
   "щоб", "що", "який", "яка", "яке", "які",
   "це", "цей", "ця", "це", "ці",
   "той", "та", "те", "ті",
   "м", "т", "й", "ж", "б", "ж", "то", "а", "ну", "о", "у", "е", "и", "о", "а",
   "тебе", "мене", "його", "її", "нас", "вас", "їх",
   "просто", "думаю", "ніхуя", "нічого", "ніколи", "ніде", "нікуди",
   "може", "можна", "треба", "потрібно", "варто",
   "було", "буде", "є", "був", "була", "були",
   "щось", "хтось", "десь", "кудись", "звідкись",
   "вже", "ще", "тільки", "лише", "навіть", "також"].map String.data

/-- `extract_words(text)`: lowercase, replace every character matching
`[^\w\sЀ-ӿ]` with a space, split on whitespace, keep words of
length ≥ `MIN_WORD_LENGTH` that are not stop words. -/
def extract_words (text : PyStr) : List PyStr :=
  let lowered := pyLower text
  let cleaned := lowered.map (fun c =>
    if isWordCh c ∨ isSpaceCh c ∨ (0x400 ≤ c.val.toNat ∧ c.val.toNat ≤ 0x4FF)
    then c else ' ')
  let words := pySplitWs cleaned
  words.filter (fun w => MIN_WORD_LENGTH ≤ w.length ∧ ¬ (w ∈ STOP_WORDS))

/-!
## Topic ranker (`topic_analyzer.analyze_topics`, lines 76-96)

`collections.Counter` iterates its keys in first-insertion order, and
`Counter.most_common(n)` is documented to sort by count descending, with
elements of equal count kept in first-encountered order (a stable descending
sort), returning the first `n` entries.  `counterKeys` produces the keys in
first-occurrence order; `stableSortDescBy` is a stable insertion sort by a
descending key, realizing the documented `most_common` order.
-/

/-- Distinct elements of a list in first-occurrence order (the key order of
`collections.Counter`). -/
def counterKeys {α : Type} [DecidableEq α] : List α → List α
  | [] => []
  | a :: r => a :: (counterKeys r).filter (fun x => x ≠ a)

/-- Stable descending insertion by key: `p` goes in front of the first element
whose key is `≤` its own, i.e. after every strictly greater key and before any
equal key that was inserted later (= occurs later in the original list). -/
def insertDescBy {α : Type} (key : α → Nat) (p : α) : List α → List α
  | [] => [p]
  | q :: r => if key q ≤ key p then p :: q :: r else q :: insertDescBy key p r

/-- Stable sort, descending by `key`.  `foldr` inserts the last element first,
so each element is placed before the equal-key elements that follow it in the
input: ties keep input order. -/
def stableSortDescBy {α : Type} (key : α → Nat) (l : List α) : List α :=
  l.foldr (insertDescBy key) []

/-- `Counter(ws).most_common(n)`: the distinct words paired with their counts,
stably sorted by descending count, first `n` kept. -/
def mostCommon (n : Nat) (ws : List PyStr) : List (PyStr × Nat) :=
  (stableSortDescBy Prod.snd ((counterKeys ws).map (fun w => (w, ws.count w)))).take n

/-- The concatenated token stream of a message list:
`(user_id, username, message_text)` triples, tokens in message order. -/
def tokenStream (messages : List (PyStr × PyStr × PyStr)) : List PyStr :=
  (messages.map (fun m => extract_words m.2.2)).flatten

/-- `analyze_topics(messages)` (lines 76-96): empty input gives `[]`; else
count all extracted words, take the 20 most common, and keep those with
count ≥ `MIN_TOPIC_FREQUENCY`. -/
def analyze_topics (messages : List (PyStr × PyStr × PyStr)) : List (PyStr × Nat) :=
  if messages = [] then []
  else (mostCommon 20 (tokenStream messages)).filter
    (fun p => MIN_TOPIC_FREQUENCY ≤ p.2)

/-!
## Topic grouper (`topic_analyzer.group_messages_by_topic`, lines 99-121)

The Python function builds a dict keyed by the topics (insertion order, keys
de-duplicated), appends each message to the list of the first ranked topic
whose keyword is in the message's extracted-word set (`break` after the first
hit), and finally replaces each non-empty list by the pair
`(first_mentioner, list)`, where `first_mentioner` is the username recorded at
the first append.  `ungrouped` stands for the topics whose list stayed `[]`
(they keep the bare list in Python); `grouped u mems` stands for the tuple.
-/

/-- The value stored for one topic key. -/
inductive GroupData where
  | ungrouped : GroupData
  | grouped : PyStr → List (PyStr × PyStr) → GroupData
  deriving DecidableEq

/-- The first ranked topic whose keyword is among the message's extracted
words (`break` at the first match); `none` if no topic matches. -/
def assignedTopic (topics : List (PyStr × Nat)) (text : PyStr) : Option PyStr :=
  (topics.find? (fun p => p.1 ∈ extract_words text)).map Prod.fst

/-- The messages assigned to topic `t`, in input order, as `(username, text)`. -/
def groupMembers (messages : List (PyStr × PyStr × PyStr)) (topics : List (PyStr × Nat))
    (t : PyStr) : List (PyStr × PyStr) :=
  messages.filterMap (fun m =>
    if assignedTopic topics m.2.2 = some t then some (m.2.1, m.2.2) else none)

/-- The dict value after the final pass of lines 117-119: an empty member
list keeps the bare list, a non-empty one becomes the pair
`(first_mentioner, members)`, where `first_mentioner` was recorded at the
first append — the username of the first member. -/
def mkGroupData : List (PyStr × PyStr) → GroupData
  | [] => GroupData.ungrouped
  | (u, x) :: rest => GroupData.grouped u ((u, x) :: rest)

/-- `group_messages_by_topic(messages, topics)`. -/
def group_messages_by_topic (messages : List (PyStr × PyStr × PyStr))
    (topics : List (PyStr × Nat)) : List (PyStr × GroupData) :=
  (counterKeys (topics.map Prod.fst)).map (fun t =>
    (t, mkGroupData (groupMembers messages topics t)))

/-!
## Output splitter (`summary.split_message`, lines 189-291)

The topic-boundary pattern is `re.compile(r'^\d+\.\s+<b>', re.MULTILINE)`:
a match can start only at offset 0 or right after a newline, reading one or
more digits, a dot, one or more whitespace characters, then the literal
`<b>`.  `\d+.` and `\s+<b>` are each deterministic (the greedy runs are
maximal, since `.` is not a digit and `<` is not whitespace).  A match spans
digits, `.`, whitespace and `<b>`; any line start strictly inside such a span
sits inside its whitespace run, where the next characters are whitespace or
`<`, never a digit — so no two match candidates overlap and `finditer`'s
start offsets are exactly the line-start offsets where the pattern matches.
-/

/-- Does `^\d+\.\s+<b>` match at the head of `l`? -/
def matchTopicHeader (l : PyStr) : Bool :=
  let ds := l.takeWhile isDigitCh
  if ds = [] then false
  else
    match l.drop ds.length with
    | '.' :: r =>
      let sp := r.takeWhile isSpaceCh
      if sp = [] then false
      else
        match r.drop sp.length with
        | '<' :: 'b' :: '>' :: _ => true
        | _ => false
    | _ => false

/-- Offsets of all multiline matches of `^\d+\.\s+<b>`; `p` is the offset of
the head of the remaining text, `atLineStart` whether a `^` anchor holds
there. -/
def topicMatchesAux : PyStr → Nat → Bool → List Nat
  | [], _, _ => []
  | c :: r, p, atLineStart =>
    if atLineStart ∧ matchTopicHeader (c :: r)
    then p :: topicMatchesAux r (p + 1) (c = '\n')
    else topicMatchesAux r (p + 1) (c = '\n')

/-- `list(topic_pattern.finditer(text))`, as start offsets. -/
def topicMatches (t : PyStr) : List Nat := topicMatchesAux t 0 true

/-- `abs(a - b)` on Python ints, for natural inputs. -/
def natDist (a b : Nat) : Nat := max a b - min a b

/-- `"\n\n<i>... (повідомлення обрізано через обмеження Telegram)</i>"`. -/
def TRUNC_MSG : PyStr :=
  "\n\n<i>... (повідомлення обрізано через обмеження Telegram)</i>".data

/-- `"\n\n<i>... (частина 1)</i>"`. -/
def TRUNC_P1 : PyStr := "\n\n<i>... (частина 1)</i>".data

/-- `"\n\n<i>... (частина 2)</i>"`. -/
def TRUNC_P2 : PyStr := "\n\n<i>... (частина 2)</i>".data

/-- Result of the line-packing loop (summary.py lines 231-247): `broke` when
the loop exited via `break` (carrying `parts` and the `remaining` string that
gets prepended to part 2), `done` when it ran off the end of the lines. -/
inductive PackOut where
  | broke : List PyStr → PyStr → PackOut
  | done : List PyStr → List PyStr → PackOut

/-- The `for line in lines1` packing loop of summary.py lines 234-247.
`lines1` stays the full line list because the `break` branch re-derives the
current position with `lines1.index(line)` — the first index holding an
*equal* line, not necessarily the current one. -/
def packLines (maxLength maxParts : Nat) (lines1 : List PyStr)
    (parts : List PyStr) (temp : List PyStr) (tempLen : Nat) :
    List PyStr → PackOut
  | [] => PackOut.done parts temp
  | line :: rest =>
    if maxLength < tempLen + (line.length + 1) ∧ temp ≠ [] then
      if maxParts - 1 ≤ (parts ++ [joinNl temp]).length then
        PackOut.broke (parts ++ [joinNl temp])
          (joinNl (temp ++ lines1.drop (lines1.indexOf line)))
      else packLines maxLength maxParts lines1 (parts ++ [joinNl temp])
        [line] (line.length + 1) rest
    else packLines maxLength maxParts lines1 parts (temp ++ [line])
      (tempLen + (line.length + 1)) rest

/-- The `for i, line in enumerate(lines)` scan of summary.py lines 272-276:
first index whose cumulative length (with one separator per line) reaches the
target, else the default `len(lines) // 2`. -/
def findSplitIdx (target : Nat) : List PyStr → Nat → Nat → Nat → Nat
  | [], _, _, deflt => deflt
  | l :: r, i, cur, deflt =>
    if target ≤ cur + l.length + 1 then i
    else findSplitIdx target r (i + 1) (cur + l.length + 1) deflt

/-- Lines 200-215: `best_split_pos` — starting from the *second* match, keep
the earliest position strictly improving the distance to the midpoint. -/
def bestSplitPos (text : PyStr) (m1 : Nat) (ms : List Nat) : Nat :=
  ms.foldl
    (fun best pos =>
      if natDist pos (text.length / 2) < natDist best (text.length / 2) then pos else best) m1

/-- Lines 227-250: re-split an oversized part 1 line-wise; the `broke` exit
merges `remaining` (with its duplicated `temp_part` prefix) into part 2. -/
def packResult (maxLength maxParts : Nat) (lines1 : List PyStr) (part2 : PyStr) :
    List PyStr × PyStr :=
  match packLines maxLength maxParts lines1 [] [] 0 lines1 with
  | PackOut.broke ps remaining =>
    (ps, if remaining ≠ [] then remaining ++ '\n' :: part2 else part2)
  | PackOut.done ps temp =>
    (if temp ≠ [] ∧ ps.length < maxParts - 1 then ps ++ [joinNl temp] else ps, part2)

/-- Lines 261: `parts[:max_parts] if parts else [text]`. -/
def clampParts (maxParts : Nat) (text : PyStr) (parts2 : List PyStr) : List PyStr :=
  if parts2 = [] then [text] else parts2.take maxParts

/-- Lines 254-261: append part 2 (truncating it if oversized) when the part
count allows, then clamp. -/
def finishParts (maxLength maxParts : Nat) (text : PyStr) (st : List PyStr × PyStr) :
    List PyStr :=
  clampParts maxParts text
    (if st.1.length < maxParts then
       st.1 ++ [if maxLength < st.2.length
                then st.2.take (maxLength - 50) ++ TRUNC_MSG else st.2]
     else st.1)

/-- Lines 218-261 given the two stripped parts at the chosen cut. -/
def splitTopicParts (text : PyStr) (maxLength maxParts : Nat) (part1 part2 : PyStr) :
    List PyStr :=
  if part1.length ≤ maxLength ∧ part2.length ≤ maxLength then [part1, part2]
  else
    finishParts maxLength maxParts text
      (if maxLength < part1.length then
         packResult maxLength maxParts (pySplitNl part1) part2
       else ([part1], part2))

/-- The topic-boundary branch of `split_message` (lines 199-261), entered when
at least two boundary matches exist. -/
def splitAtTopics (text : PyStr) (maxLength maxParts : Nat)
    (m1 : Nat) (ms : List Nat) : List PyStr :=
  splitTopicParts text maxLength maxParts
    (pyStrip (text.take (bestSplitPos text m1 ms)))
    (pyStrip (text.drop (bestSplitPos text m1 ms)))

/-- The fallback branch of `split_message` (lines 263-291): split near the
character midpoint at a line boundary, truncating each half independently if
it still exceeds the limit. -/
def splitFallback (text : PyStr) (maxLength : Nat) : List PyStr :=
  let lines := pySplitNl text
  let targetSplit := text.length / 2
  let splitIdx := findSplitIdx targetSplit lines 0 0 (lines.length / 2)
  let part1 := pyStrip (joinNl (lines.take splitIdx))
  let part2 := pyStrip (joinNl (lines.drop splitIdx))
  if part1.length ≤ maxLength ∧ part2.length ≤ maxLength then [part1, part2]
  else
    [if maxLength < part1.length then part1.take (maxLength - 50) ++ TRUNC_P1 else part1,
     if maxLength < part2.length then part2.take (maxLength - 50) ++ TRUNC_P2 else part2]

/-- Dispatch on the boundary matches of an oversized text (lines 195-291). -/
def splitOversized (text : PyStr) (maxLength maxParts : Nat) : List Nat → List PyStr
  | _ :: m1 :: ms => splitAtTopics text maxLength maxParts m1 ms
  | _ => splitFallback text maxLength

/-- `split_message(text, max_length=4096, max_parts=2)` (lines 189-291). -/
def split_message (text : PyStr) (maxLength : Nat := 4096) (maxParts : Nat := 2) :
    List PyStr :=
  if text.length ≤ maxLength then [text]
  else splitOversized text maxLength maxParts (topicMatches text)

/-- Modelled from the spec (§4.6): "choose the boundary whose position is
closest to the midpoint as the cut point" — the earliest boundary, among ALL
boundary matches, minimizing the distance to the character midpoint. -/
def specClosestBoundary (t : PyStr) : Option Nat :=
  match topicMatches t with
  | [] => none
  | b :: bs => some (bs.foldl
      (fun best pos =>
        if natDist pos (t.length / 2) < natDist best (t.length / 2) then pos else best) b)

/-!
## Properties of `counterKeys` and the stable descending sort (claim C4)
-/


/-- Index of the first occurrence of `x` in a list (`list.index` order). -/
def firstIdx {α : Type} [DecidableEq α] (x : α) : List α → Nat
  | [] => 0
  | a :: r => if a = x then 0 else firstIdx x r + 1

theorem mem_counterKeys {α : Type} [DecidableEq α] {x : α} :
    ∀ {l : List α}, x ∈ counterKeys l ↔ x ∈ l := by
  intro l
  induction l with
  | nil => simp [counterKeys]
  | cons a r ih =>
    by_cases hx : x = a
    · subst hx; simp [counterKeys]
    · simp [counterKeys, List.mem_filter, ih, hx]

theorem counterKeys_pairwise_firstIdx {α : Type} [DecidableEq α] :
    ∀ (l : List α), (counterKeys l).Pairwise (fun x y => firstIdx x l < firstIdx y l) := by
  intro l
  induction l with
  | nil => simp [counterKeys]
  | cons a r ih =>
    rw [counterKeys]
    constructor
    · intro y hy
      rw [List.mem_filter] at hy
      have hya : y ≠ a := by simpa using hy.2
      simp only [firstIdx, if_pos rfl, if_neg hya.symm]
      exact Nat.succ_pos _
    · refine List.Pairwise.imp_of_mem ?_ (List.Pairwise.filter _ ih)
      intro x y hx hy hxy
      rw [List.mem_filter] at hx hy
      have hxa : x ≠ a := by simpa using hx.2
      have hya : y ≠ a := by simpa using hy.2
      simp only [firstIdx, if_neg hxa.symm, if_neg hya.symm]
      exact Nat.succ_lt_succ hxy

theorem mem_insertDescBy {α : Type} (key : α → Nat) (p : α) {x : α} :
    ∀ {l : List α}, x ∈ insertDescBy key p l ↔ x = p ∨ x ∈ l := by
  intro l
  induction l with
  | nil => simp [insertDescBy]
  | cons q r ih =>
    by_cases h : key q ≤ key p
    · simp [insertDescBy, h]
    · simp only [insertDescBy, if_neg h, List.mem_cons, ih]
      tauto

/-- The order produced by the stable descending insertion sort: keys
non-increasing, and on key ties the secondary rank strictly increasing. -/
def DescStable {α : Type} (key rank : α → Nat) (a b : α) : Prop :=
  key b ≤ key a ∧ (key a = key b → rank a < rank b)

theorem insertDescBy_pairwise {α : Type} (key rank : α → Nat) (p : α) :
    ∀ {l : List α}, l.Pairwise (DescStable key rank) →
      (∀ q ∈ l, key p = key q → rank p < rank q) →
      (insertDescBy key p l).Pairwise (DescStable key rank) := by
  intro l
  induction l with
  | nil => intro _ _; simp [insertDescBy, DescStable]
  | cons q r ih =>
    intro hl hp
    rw [List.pairwise_cons] at hl
    by_cases h : key q ≤ key p
    · rw [insertDescBy, if_pos h, List.pairwise_cons]
      refine ⟨?_, List.pairwise_cons.mpr hl⟩
      intro x hx
      rcases List.mem_cons.mp hx with hxq | hxr
      · subst hxq
        exact ⟨h, hp x (List.mem_cons_self _ _)⟩
      · have hqx := hl.1 x hxr
        refine ⟨le_trans hqx.1 h, ?_⟩
        intro hpx
        exact hp x (List.mem_cons_of_mem _ hxr) hpx
    · rw [insertDescBy, if_neg h, List.pairwise_cons]
      constructor
      · intro x hx
        rcases (mem_insertDescBy key p).mp hx with hxp | hxr
        · subst hxp
          exact ⟨Nat.le_of_lt (Nat.lt_of_not_le h), fun he => absurd (he ▸ le_refl _) h⟩
        · exact hl.1 x hxr
      · exact ih hl.2 (fun x hx hke => hp x (List.mem_cons_of_mem _ hx) hke)

theorem mem_stableSortDescBy {α : Type} {key : α → Nat} {x : α} :
    ∀ {l : List α}, x ∈ stableSortDescBy key l ↔ x ∈ l := by
  intro l
  induction l with
  | nil => simp [stableSortDescBy]
  | cons p r ih =>
    show x ∈ insertDescBy key p (stableSortDescBy key r) ↔ _
    rw [mem_insertDescBy, ih]
    simp

theorem stableSortDescBy_pairwise {α : Type} (key rank : α → Nat) :
    ∀ {l : List α}, l.Pairwise (fun a b => rank a < rank b) →
      (stableSortDescBy key l).Pairwise (DescStable key rank) := by
  intro l
  induction l with
  | nil => intro _; simp [stableSortDescBy]
  | cons p r ih =>
    intro hl
    rw [List.pairwise_cons] at hl
    show (insertDescBy key p (stableSortDescBy key r)).Pairwise (DescStable key rank)
    refine insertDescBy_pairwise key rank p (ih hl.2) ?_
    intro q hq _
    exact hl.1 q (mem_stableSortDescBy.mp hq)


/-- Claim C4: for every message list, `analyze_topics` returns at most 20
`(keyword, frequency)` pairs, each with frequency ≥ 1, sorted by
non-increasing frequency, and pairs of equal frequency appear in
first-occurrence order of the keyword in the concatenated token stream. -/
theorem c4_topic_ranker_order (messages : List (PyStr × PyStr × PyStr)) :
    (analyze_topics messages).length ≤ 20 ∧
    (∀ p ∈ analyze_topics messages, 1 ≤ p.2) ∧
    (analyze_topics messages).Pairwise (fun a b => b.2 ≤ a.2 ∧
      (a.2 = b.2 →
        firstIdx a.1 (tokenStream messages) < firstIdx b.1 (tokenStream messages))) := by
  by_cases hm : messages = []
  · simp [analyze_topics, hm]
  · have hunf : analyze_topics messages =
        (mostCommon 20 (tokenStream messages)).filter
          (fun p => MIN_TOPIC_FREQUENCY ≤ p.2) := by
      rw [analyze_topics, if_neg hm]
    refine ⟨?_, ?_, ?_⟩
    · rw [hunf]
      calc ((mostCommon 20 (tokenStream messages)).filter _).length
          ≤ (mostCommon 20 (tokenStream messages)).length := List.length_filter_le _ _
        _ ≤ 20 := by
            rw [mostCommon]
            rw [List.length_take]
            exact min_le_left _ _
    · intro p hp
      rw [hunf] at hp
      have := (List.mem_filter.mp hp).2
      simpa [MIN_TOPIC_FREQUENCY] using this
    · rw [hunf]
      refine List.Pairwise.sublist (List.filter_sublist _) ?_
      rw [mostCommon]
      refine List.Pairwise.sublist (List.take_sublist _ _) ?_
      have hbase : ((counterKeys (tokenStream messages)).map
          (fun w => (w, (tokenStream messages).count w))).Pairwise
          (fun a b => firstIdx a.1 (tokenStream messages) <
            firstIdx b.1 (tokenStream messages)) := by
        refine List.Pairwise.map _ ?_ (counterKeys_pairwise_firstIdx (tokenStream messages))
        intro a b h
        exact h
      have := stableSortDescBy_pairwise Prod.snd
        (fun p => firstIdx p.1 (tokenStream messages)) hbase
      exact this.imp (fun h => ⟨h.1, h.2⟩)

/-- Witness for C4 at a concrete input. -/
def msgs7 : List (PyStr × PyStr × PyStr) :=
  [("1".data, "Ann".data, "faceit rating is great today".data),
   ("2".data, "Bob".data, "faceit rating dropped".data),
   ("3".data, "Ann".data, "faceit faceit faceit".data)]

theorem c4_topic_ranker_order_witness :
    (analyze_topics msgs7).length ≤ 20 ∧
    (∀ p ∈ analyze_topics msgs7, 1 ≤ p.2) ∧
    (analyze_topics msgs7).Pairwise (fun a b => b.2 ≤ a.2 ∧
      (a.2 = b.2 →
        firstIdx a.1 (tokenStream msgs7) < firstIdx b.1 (tokenStream msgs7))) :=
  c4_topic_ranker_order msgs7

/-!
## Properties of the topic grouper (claim C3)
-/

/-- The member list stored in a `GroupData`. -/
def groupDataMembers : GroupData → List (PyStr × PyStr)
  | GroupData.ungrouped => []
  | GroupData.grouped _ ms => ms

theorem groupDataMembers_mkGroupData (ms : List (PyStr × PyStr)) :
    groupDataMembers (mkGroupData ms) = ms := by
  cases ms with
  | nil => rfl
  | cons p rest => cases p; rfl

theorem mem_group_iff {messages : List (PyStr × PyStr × PyStr)}
    {topics : List (PyStr × Nat)} {t : PyStr} {d : GroupData} :
    (t, d) ∈ group_messages_by_topic messages topics ↔
      t ∈ counterKeys (topics.map Prod.fst) ∧
        d = mkGroupData (groupMembers messages topics t) := by
  rw [group_messages_by_topic]
  constructor
  · intro h
    rcases List.mem_map.mp h with ⟨t', ht', heq⟩
    have ht : t' = t := congrArg Prod.fst heq
    subst ht
    exact ⟨ht', (congrArg Prod.snd heq).symm⟩
  · rintro ⟨ht, hd⟩
    exact List.mem_map.mpr ⟨t, ht, by rw [hd]⟩

theorem mem_groupMembers {messages : List (PyStr × PyStr × PyStr)}
    {topics : List (PyStr × Nat)} {t : PyStr} {p : PyStr × PyStr} :
    p ∈ groupMembers messages topics t ↔
      ∃ m ∈ messages, assignedTopic topics m.2.2 = some t ∧ p = (m.2.1, m.2.2) := by
  rw [groupMembers, List.mem_filterMap]
  constructor
  · rintro ⟨m, hm, hf⟩
    by_cases ha : assignedTopic topics m.2.2 = some t
    · rw [if_pos ha] at hf
      exact ⟨m, hm, ha, (Option.some_inj.mp hf).symm⟩
    · rw [if_neg ha] at hf
      cases hf
  · rintro ⟨m, hm, ha, hp⟩
    exact ⟨m, hm, by rw [if_pos ha, hp]⟩

theorem assignedTopic_mem_words {topics : List (PyStr × Nat)} {x t : PyStr}
    (h : assignedTopic topics x = some t) : t ∈ extract_words x := by
  rw [assignedTopic] at h
  rcases Option.map_eq_some'.mp h with ⟨pair, hfind, hfst⟩
  have := List.find?_some hfind
  rw [hfst] at this
  simpa using this

theorem assignedTopic_not_earlier {topics : List (PyStr × Nat)} {x t : PyStr}
    (h : assignedTopic topics x = some t) :
    ∀ k ∈ (topics.map Prod.fst).takeWhile (fun k => k ≠ t), ¬ k ∈ extract_words x := by
  induction topics with
  | nil => simp [assignedTopic] at h
  | cons p rest ih =>
    rw [assignedTopic] at h
    by_cases hp : p.1 ∈ extract_words x
    · rw [List.find?_cons_of_pos _ (by simpa using hp)] at h
      have ht : p.1 = t := by simpa using h
      intro k hk
      rw [List.map_cons, List.takeWhile_cons, if_neg (by simp [ht])] at hk
      cases hk
    · rw [List.find?_cons_of_neg _ (by simpa using hp)] at h
      intro k hk
      rw [List.map_cons, List.takeWhile_cons] at hk
      by_cases hpt : p.1 = t
      · rw [if_neg (by simp [hpt])] at hk
        cases hk
      · rw [if_pos (by simpa using hpt)] at hk
        rcases List.mem_cons.mp hk with hkp | hkrest
        · subst hkp; exact hp
        · exact ih (by rw [assignedTopic]; exact h) k hkrest

/-- Claim C3: (i) every member of a topic group was assigned exactly that
topic; (ii) a `(username, text)` pair never sits in two distinct groups;
(iii) each member's text contains the group keyword as an extracted
(whole-word, lowercased) token, and no higher-ranked keyword occurs among its
tokens; (iv) `first_mentioner` is the username of the first message, in input
order, assigned to the group. -/
theorem c3_grouping_invariants (messages : List (PyStr × PyStr × PyStr))
    (topics : List (PyStr × Nat)) :
    (∀ t d, (t, d) ∈ group_messages_by_topic messages topics →
      ∀ p ∈ groupDataMembers d, assignedTopic topics p.2 = some t) ∧
    (∀ t₁ t₂ d₁ d₂ p, (t₁, d₁) ∈ group_messages_by_topic messages topics →
      (t₂, d₂) ∈ group_messages_by_topic messages topics →
      p ∈ groupDataMembers d₁ → p ∈ groupDataMembers d₂ → t₁ = t₂) ∧
    (∀ t d, (t, d) ∈ group_messages_by_topic messages topics →
      ∀ p ∈ groupDataMembers d, t ∈ extract_words p.2 ∧
        ∀ k ∈ (topics.map Prod.fst).takeWhile (fun k => k ≠ t),
          ¬ k ∈ extract_words p.2) ∧
    (∀ t u ms, (t, GroupData.grouped u ms) ∈ group_messages_by_topic messages topics →
      ∃ pre m post, messages = pre ++ m :: post ∧ m.2.1 = u ∧
        assignedTopic topics m.2.2 = some t ∧
        ∀ m' ∈ pre, assignedTopic topics m'.2.2 ≠ some t) := by
  have hassign : ∀ t d, (t, d) ∈ group_messages_by_topic messages topics →
      ∀ p ∈ groupDataMembers d, assignedTopic topics p.2 = some t := by
    intro t d hd p hp
    rw [(mem_group_iff.mp hd).2, groupDataMembers_mkGroupData] at hp
    rcases mem_groupMembers.mp hp with ⟨m, _hm, ha, hpm⟩
    rw [hpm]
    exact ha
  refine ⟨hassign, ?_, ?_, ?_⟩
  · intro t₁ t₂ d₁ d₂ p h₁ h₂ hp₁ hp₂
    have e₁ := hassign t₁ d₁ h₁ p hp₁
    have e₂ := hassign t₂ d₂ h₂ p hp₂
    rw [e₁] at e₂
    exact Option.some_inj.mp e₂
  · intro t d hd p hp
    have ha := hassign t d hd p hp
    exact ⟨assignedTopic_mem_words ha, assignedTopic_not_earlier ha⟩
  · intro t u ms hmem
    have hd := (mem_group_iff.mp hmem).2
    cases hg : groupMembers messages topics t with
    | nil => rw [hg, mkGroupData] at hd; cases hd
    | cons p rest =>
      cases p with
      | mk u₀ x₀ =>
        rw [hg, mkGroupData] at hd
        have hu : u = u₀ := by
          injection hd with h1 _
        rw [groupMembers] at hg
        rcases List.filterMap_eq_cons_iff.mp hg with ⟨pre, m, post, hsplit, hnone, hsome, _⟩
        have hasg : assignedTopic topics m.2.2 = some t ∧ m.2.1 = u₀ := by
          by_cases ha : assignedTopic topics m.2.2 = some t
          · rw [if_pos ha] at hsome
            exact ⟨ha, congrArg Prod.fst (Option.some_inj.mp hsome)⟩
          · rw [if_neg ha] at hsome
            cases hsome
        refine ⟨pre, m, post, hsplit, by rw [hasg.2, hu], hasg.1, ?_⟩
        intro m' hm' hcon
        have := hnone m' hm'
        rw [if_pos hcon] at this
        cases this

/-- Witness for C3 at a concrete input (the C7 scenario messages and their
ranked topics). -/
theorem c3_grouping_invariants_witness :
    (∀ t d, (t, d) ∈ group_messages_by_topic msgs7 (analyze_topics msgs7) →
      ∀ p ∈ groupDataMembers d, assignedTopic (analyze_topics msgs7) p.2 = some t) ∧
    (∀ t₁ t₂ d₁ d₂ p, (t₁, d₁) ∈ group_messages_by_topic msgs7 (analyze_topics msgs7) →
      (t₂, d₂) ∈ group_messages_by_topic msgs7 (analyze_topics msgs7) →
      p ∈ groupDataMembers d₁ → p ∈ groupDataMembers d₂ → t₁ = t₂) ∧
    (∀ t d, (t, d) ∈ group_messages_by_topic msgs7 (analyze_topics msgs7) →
      ∀ p ∈ groupDataMembers d, t ∈ extract_words p.2 ∧
        ∀ k ∈ ((analyze_topics msgs7).map Prod.fst).takeWhile (fun k => k ≠ t),
          ¬ k ∈ extract_words p.2) ∧
    (∀ t u ms, (t, GroupData.grouped u ms) ∈ group_messages_by_topic msgs7 (analyze_topics msgs7) →
      ∃ pre m post, msgs7 = pre ++ m :: post ∧ m.2.1 = u ∧
        assignedTopic (analyze_topics msgs7) m.2.2 = some t ∧
        ∀ m' ∈ pre, assignedTopic (analyze_topics msgs7) m'.2.2 ≠ some t) :=
  c3_grouping_invariants msgs7 (analyze_topics msgs7)

/-- Counterexample to claim C7 as stated: on the scenario messages the topic
"faceit" is not ranked with frequency 3 — `Counter` counts every token
occurrence (1 + 1 + 3 = 5), not one per message. -/
theorem c7_counterexample :
    ¬ ((analyze_topics msgs7).head? = some ("faceit".data, 3)) := by decide

/-- Claim C7 as amended: "faceit" is ranked first with frequency 5 (total
occurrence count across tokens); its group contains all three messages in
input order; `first_mentioner` is "Ann". -/
theorem c7_faceit_scenario :
    (analyze_topics msgs7).head? = some ("faceit".data, 5) ∧
    (group_messages_by_topic msgs7 (analyze_topics msgs7)).head? =
      some ("faceit".data, GroupData.grouped "Ann".data
        [("Ann".data, "faceit rating is great today".data),
         ("Bob".data, "faceit rating dropped".data),
         ("Ann".data, "faceit faceit faceit".data)]) := by
  constructor
  · decide
  · decide

/-!
## Symbolic-evaluation lemmas for the splitter (claims C1 and C5)

The concrete inputs exercising `split_message` are several thousand
characters long, so the theorems about them are proved by structural
rewriting rather than brute-force evaluation.
-/

theorem matchTopicHeader_not_digit {c : Char} (h : isDigitCh c = false) (r : PyStr) :
    matchTopicHeader (c :: r) = false := by
  simp [matchTopicHeader, List.takeWhile_cons, h]

theorem topicMatchesAux_cons_false (c : Char) (r : PyStr) (p : Nat) :
    topicMatchesAux (c :: r) p false = topicMatchesAux r (p + 1) (decide (c = '\n')) := by
  simp [topicMatchesAux]

theorem topicMatchesAux_cons_true_nomatch {c : Char} {r : PyStr}
    (h : matchTopicHeader (c :: r) = false) (p : Nat) :
    topicMatchesAux (c :: r) p true = topicMatchesAux r (p + 1) (decide (c = '\n')) := by
  simp [topicMatchesAux, h]

theorem topicMatchesAux_cons_true_match {c : Char} {r : PyStr}
    (h : matchTopicHeader (c :: r) = true) (p : Nat) :
    topicMatchesAux (c :: r) p true = p :: topicMatchesAux r (p + 1) (decide (c = '\n')) := by
  simp [topicMatchesAux, h]

theorem topicMatchesAux_seg {seg : PyStr} (h : '\n' ∉ seg) :
    ∀ (rest : PyStr) (p : Nat),
      topicMatchesAux (seg ++ rest) p false = topicMatchesAux rest (p + seg.length) false := by
  induction seg with
  | nil => intro rest p; simp
  | cons c s ih =>
    intro rest p
    have hc : c ≠ '\n' := fun hcc => h (by simp [hcc])
    rw [List.cons_append, topicMatchesAux_cons_false, decide_eq_false hc,
        ih (fun hm => h (List.mem_cons_of_mem _ hm)) rest (p + 1)]
    congr 1
    simp [List.length_cons]
    omega

theorem topicMatchesAux_replicate {c : Char} (hq : c ≠ '\n') (n : Nat)
    (rest : PyStr) (p : Nat) :
    topicMatchesAux (List.replicate n c ++ rest) p false =
      topicMatchesAux rest (p + n) false := by
  rw [topicMatchesAux_seg (fun hm => hq (List.eq_of_mem_replicate hm).symm) rest p,
      List.length_replicate]

/-- Entering a replicate block with the line-start flag set, when the block
character cannot start a header match. -/
theorem topicMatchesAux_replicate_true {c : Char} (hq : c ≠ '\n')
    (hd : isDigitCh c = false) (n : Nat) (rest : PyStr) (p : Nat) (hn : n ≠ 0) :
    topicMatchesAux (List.replicate n c ++ rest) p true =
      topicMatchesAux rest (p + n) false := by
  cases n with
  | zero => exact absurd rfl hn
  | succ m =>
    rw [List.replicate_succ, List.cons_append,
        topicMatchesAux_cons_true_nomatch (matchTopicHeader_not_digit hd _),
        decide_eq_false hq, topicMatchesAux_replicate hq]
    congr 1
    omega

theorem pyStrip_cons_snoc {c₀ c₁ : Char} (h0 : isSpaceCh c₀ = false)
    (h1 : isSpaceCh c₁ = false) (mid : PyStr) :
    pyStrip (c₀ :: (mid ++ [c₁])) = c₀ :: (mid ++ [c₁]) := by
  rw [pyStrip, List.dropWhile_cons, if_neg (by simp [h0])]
  rw [List.reverse_cons, List.reverse_append]
  show (((c₁ :: mid.reverse) ++ [c₀]).dropWhile isSpaceCh).reverse = _
  rw [List.cons_append, List.dropWhile_cons, if_neg (by simp [h1])]
  simp

theorem pyStrip_cons_snoc_nl {c₀ c₁ : Char} (h0 : isSpaceCh c₀ = false)
    (h1 : isSpaceCh c₁ = false) (mid : PyStr) :
    pyStrip ((c₀ :: (mid ++ [c₁])) ++ ['\n']) = c₀ :: (mid ++ [c₁]) := by
  rw [pyStrip, List.cons_append, List.dropWhile_cons, if_neg (by simp [h0])]
  rw [show ((c₀ :: ((mid ++ [c₁]) ++ ['\n']))) = ((c₀ :: (mid ++ [c₁])) ++ ['\n']) by simp]
  rw [List.reverse_append]
  show (((['\n'] : PyStr).reverse ++ _).dropWhile isSpaceCh).reverse = _
  rw [List.reverse_singleton, List.cons_append, List.dropWhile_cons,
      if_pos (by simp [isSpaceCh]), List.nil_append]
  rw [List.reverse_cons, List.reverse_append]
  show (((c₁ :: mid.reverse) ++ [c₀]).dropWhile isSpaceCh).reverse = _
  rw [List.cons_append, List.dropWhile_cons, if_neg (by simp [h1])]
  simp

theorem pySplitNl_no_nl {l : PyStr} (h : '\n' ∉ l) : pySplitNl l = [l] := by
  induction l with
  | nil => rfl
  | cons c r ih =>
    have hc : c ≠ '\n' := fun hcc => h (by simp [hcc])
    rw [pySplitNl, if_neg hc, ih (fun hm => h (List.mem_cons_of_mem _ hm))]

theorem pySplitNl_append_nl {a : PyStr} (h : '\n' ∉ a) (rest : PyStr) :
    pySplitNl (a ++ '\n' :: rest) = a :: pySplitNl rest := by
  induction a with
  | nil => rw [List.nil_append, pySplitNl, if_pos rfl]
  | cons c s ih =>
    have hc : c ≠ '\n' := fun hcc => h (by simp [hcc])
    rw [List.cons_append, pySplitNl, if_neg hc,
        ih (fun hm => h (List.mem_cons_of_mem _ hm))]

theorem joinNl_nil : joinNl [] = [] := rfl

theorem joinNl_single (a : PyStr) : joinNl [a] = a := by
  simp [joinNl, List.intercalate]

theorem joinNl_cons₂ (a b : PyStr) (r : List PyStr) :
    joinNl (a :: b :: r) = a ++ '\n' :: joinNl (b :: r) := by
  simp [joinNl, List.intercalate, List.intersperse_cons_cons]

/-!
## Claim C1: a returned chunk can exceed `max_length`

`tC1` is an oversized text whose two topic boundaries force the cut at the
second one; the first part is then one single 5006-character line, which the
line-packing loop emits whole as a chunk — 5006 > 4096, contradicting the
function's own contract ("parts that fit within Telegram's limit").
-/

def hdrC1 : PyStr := ['1', '.', ' ', '<', 'b', '>']

def tailC1 : PyStr := "2. <b>ok".data

def tC1 : PyStr := hdrC1 ++ (List.replicate 5000 'x' ++ '\n' :: tailC1)

theorem tC1_length : tC1.length = 5015 := by
  have h : tailC1.length = 8 := rfl
  simp only [tC1, hdrC1, List.length_append, List.length_replicate, List.length_cons, h]
  norm_num

theorem topicMatches_tC1 : topicMatches tC1 = [0, 5007] := by
  rw [topicMatches]
  calc topicMatchesAux tC1 0 true
      = 0 :: topicMatchesAux ((['.', ' ', '<', 'b', '>'] : PyStr) ++
          (List.replicate 5000 'x' ++ '\n' :: tailC1)) 1 false := by
        rw [show tC1 = '1' :: ((['.', ' ', '<', 'b', '>'] : PyStr) ++
          (List.replicate 5000 'x' ++ '\n' :: tailC1)) from rfl]
        rw [topicMatchesAux_cons_true_match (by decide)]
        rfl
    _ = 0 :: topicMatchesAux (List.replicate 5000 'x' ++ '\n' :: tailC1) 6 false := by
        rw [topicMatchesAux_seg (by decide)]
        rfl
    _ = 0 :: topicMatchesAux ('\n' :: tailC1) 5006 false := by
        rw [topicMatchesAux_replicate (by decide)]
    _ = [0, 5007] := by decide

theorem take_tC1 : tC1.take 5007 = (hdrC1 ++ List.replicate 5000 'x') ++ ['\n'] := by
  rw [tC1, List.take_append_eq_append_take,
      List.take_of_length_le (by rw [show hdrC1.length = 6 from rfl]; omega),
      List.take_append_eq_append_take, List.take_replicate]
  rw [show hdrC1.length = 6 from rfl, show (List.replicate 5000 'x' : PyStr).length = 5000 from
      List.length_replicate 5000 'x']
  norm_num

theorem drop_tC1 : tC1.drop 5007 = tailC1 := by
  rw [tC1, List.drop_append_eq_append_drop,
      List.drop_of_length_le (by rw [show hdrC1.length = 6 from rfl]; omega),
      List.drop_append_eq_append_drop, List.drop_replicate]
  rw [show hdrC1.length = 6 from rfl, show (List.replicate 5000 'x' : PyStr).length = 5000 from
      List.length_replicate 5000 'x']
  norm_num

theorem part1_tC1 : pyStrip (tC1.take 5007) = hdrC1 ++ List.replicate 5000 'x' := by
  rw [take_tC1]
  have hshape : hdrC1 ++ List.replicate 5000 'x' =
      '1' :: (((['.', ' ', '<', 'b', '>'] : PyStr) ++ List.replicate 4999 'x') ++ ['x']) := by
    rw [show (5000 : Nat) = 4999 + 1 from rfl, List.replicate_succ']
    rfl
  rw [hshape, pyStrip_cons_snoc_nl (by decide) (by decide)]

theorem part2_tC1 : pyStrip (tC1.drop 5007) = tailC1 := by
  rw [drop_tC1]
  rw [show tailC1 = '2' :: (((['.', ' ', '<', 'b', '>', 'o'] : PyStr)) ++ ['k']) from rfl]
  rw [pyStrip_cons_snoc (by decide) (by decide)]

theorem part1_tC1_length : (hdrC1 ++ List.replicate 5000 'x').length = 5006 := by
  rw [List.length_append, List.length_replicate, show hdrC1.length = 6 from rfl]

theorem nl_not_mem_part1 : ¬ ('\n' ∈ hdrC1 ++ List.replicate 5000 'x') := by
  intro h
  rcases List.mem_append.mp h with h1 | h2
  · exact absurd h1 (by decide)
  · exact absurd (List.eq_of_mem_replicate h2) (by decide)

def partC1 : PyStr := hdrC1 ++ List.replicate 5000 'x'

theorem packLines_tC1 :
    packLines 4096 2 [partC1] [] [] 0 [partC1] = PackOut.done [] [partC1] := by
  rw [packLines, if_neg (by simp), packLines, List.nil_append]

theorem packResult_tC1 : packResult 4096 2 [partC1] tailC1 = ([partC1], tailC1) := by
  rw [packResult, packLines_tC1]
  show ((if ([partC1] ≠ [] ∧ ([] : List PyStr).length < 2 - 1)
        then ([] : List PyStr) ++ [joinNl [partC1]] else []), tailC1) = ([partC1], tailC1)
  rw [if_pos (by constructor <;> simp)]
  rw [joinNl_single, List.nil_append]

/-- Claim C1, evaluated at `tC1`: `split_message` returns the 5006-character
single-line first part as a chunk of its own — beyond the 4096-character
limit that the claim (and the function's own docstring) promises. -/
theorem c1_oversized_chunk :
    split_message tC1 4096 2 = [partC1, tailC1] ∧
    ∃ chunk ∈ split_message tC1 4096 2, 4096 < chunk.length := by
  have heval : split_message tC1 4096 2 = [partC1, tailC1] := by
    rw [split_message, if_neg (by rw [tC1_length]; omega), topicMatches_tC1]
    rw [show splitOversized tC1 4096 2 [0, 5007] = splitAtTopics tC1 4096 2 5007 [] from rfl]
    rw [splitAtTopics, show bestSplitPos tC1 5007 [] = 5007 from rfl]
    rw [part1_tC1, part2_tC1]
    rw [splitTopicParts]
    rw [if_neg (show ¬ ((hdrC1 ++ List.replicate 5000 'x').length ≤ 4096 ∧
          tailC1.length ≤ 4096) from by rw [part1_tC1_length]; omega)]
    rw [if_pos (show 4096 < (hdrC1 ++ List.replicate 5000 'x').length from by
          rw [part1_tC1_length]; omega)]
    rw [pySplitNl_no_nl nl_not_mem_part1]
    rw [show (hdrC1 ++ List.replicate 5000 'x' : PyStr) = partC1 from rfl]
    rw [packResult_tC1, finishParts]
    rw [if_pos (show ([partC1] : List PyStr).length < 2 from by simp)]
    rw [if_neg (show ¬ 4096 < tailC1.length from by
          rw [show tailC1.length = 8 from rfl]; omega)]
    rw [clampParts, if_neg (by simp)]
    rfl
  refine ⟨heval, ⟨partC1, ?_, ?_⟩⟩
  · rw [heval]; exact List.mem_cons_self _ _
  · rw [show partC1.length = 5006 from part1_tC1_length]; omega

/-!
## Claim C5: the cut point skips the first boundary

`tC5` has its first topic boundary at offset 4091 — the boundary closest to
the midpoint 3057, with both parts of that cut fitting the limit — but the
loop of lines 204-215 only considers boundaries from index 1 on, so the code
cuts at 6104 and degenerates into repacking plus truncation.
-/

/-- The trailing-whitespace half of `str.strip()`. -/
def dropTrailingWs (l : PyStr) : PyStr := (l.reverse.dropWhile isSpaceCh).reverse

theorem pyStrip_cons_nonspace {c : Char} (h : isSpaceCh c = false) (l : PyStr) :
    pyStrip (c :: l) = dropTrailingWs (c :: l) := by
  rw [pyStrip, dropTrailingWs, List.dropWhile_cons, if_neg (by simp [h])]

theorem dropTrailingWs_append_nl (l : PyStr) :
    dropTrailingWs (l ++ ['\n']) = dropTrailingWs l := by
  rw [dropTrailingWs, dropTrailingWs, List.reverse_append]
  rw [show (['\n'] : PyStr).reverse = ['\n'] from rfl, List.cons_append, List.nil_append,
      List.dropWhile_cons, if_pos (by simp [isSpaceCh])]

theorem dropTrailingWs_snoc {c : Char} (h : isSpaceCh c = false) (l : PyStr) :
    dropTrailingWs (l ++ [c]) = l ++ [c] := by
  rw [dropTrailingWs, List.reverse_append]
  rw [show ([c] : PyStr).reverse = [c] from rfl, List.cons_append, List.nil_append,
      List.dropWhile_cons, if_neg (by simp [h])]
  simp

def fC5 : PyStr := List.replicate 4090 'y'
def h1C5 : PyStr := "1. <b>A</b>".data
def gC5 : PyStr := List.replicate 2000 'y'
def h2C5 : PyStr := "2. <b>B</b>".data

def tC5 : PyStr := fC5 ++ '\n' :: (h1C5 ++ '\n' :: (gC5 ++ '\n' :: h2C5))

theorem tC5_length : tC5.length = 6115 := by
  simp only [tC5, fC5, h1C5, gC5, h2C5, List.length_append, List.length_cons,
    List.length_replicate, show ("1. <b>A</b>".data : PyStr).length = 11 from rfl,
    show ("2. <b>B</b>".data : PyStr).length = 11 from rfl]

theorem topicMatches_tC5 : topicMatches tC5 = [4091, 6104] := by
  rw [topicMatches]
  calc topicMatchesAux tC5 0 true
      = topicMatchesAux ('\n' :: (h1C5 ++ '\n' :: (gC5 ++ '\n' :: h2C5))) 4090 false := by
        rw [tC5, show (fC5 : PyStr) = List.replicate 4090 'y' from rfl,
          topicMatchesAux_replicate_true (by decide) (by decide) 4090 _ 0 (by omega)]
    _ = topicMatchesAux (h1C5 ++ '\n' :: (gC5 ++ '\n' :: h2C5)) 4091 true := by
        rw [topicMatchesAux_cons_false]
        norm_num
    _ = 4091 :: topicMatchesAux ((". <b>A</b>".data : PyStr) ++ '\n' :: (gC5 ++ '\n' :: h2C5))
          4092 false := by
        rw [show h1C5 ++ '\n' :: (gC5 ++ '\n' :: h2C5) =
          '1' :: ((". <b>A</b>".data : PyStr) ++ '\n' :: (gC5 ++ '\n' :: h2C5)) from rfl]
        rw [topicMatchesAux_cons_true_match (by decide)]
        rfl
    _ = 4091 :: topicMatchesAux ('\n' :: (gC5 ++ '\n' :: h2C5)) 4102 false := by
        rw [topicMatchesAux_seg (by decide)]
        rfl
    _ = 4091 :: topicMatchesAux (gC5 ++ '\n' :: h2C5) 4103 true := by
        rw [topicMatchesAux_cons_false]
        rfl
    _ = 4091 :: topicMatchesAux ('\n' :: h2C5) 6103 false := by
        rw [show (gC5 : PyStr) = List.replicate 2000 'y' from rfl,
          topicMatchesAux_replicate_true (by decide) (by decide) 2000 _ 4103 (by omega)]
    _ = 4091 :: topicMatchesAux h2C5 6104 true := by
        rw [topicMatchesAux_cons_false]
        rfl
    _ = [4091, 6104] := by
        rw [show (h2C5 : PyStr) =
          '2' :: (". <b>B</b>".data : PyStr) from rfl]
        rw [topicMatchesAux_cons_true_match (by decide)]
        decide

theorem fC5_length : fC5.length = 4090 := by rw [fC5, List.length_replicate]
theorem gC5_length : gC5.length = 2000 := by rw [gC5, List.length_replicate]
theorem h1C5_length : h1C5.length = 11 := rfl
theorem h2C5_length : h2C5.length = 11 := rfl

theorem pyStrip_replicate_head {c : Char} (h : isSpaceCh c = false) (n : Nat)
    (hn : n ≠ 0) (X : PyStr) :
    pyStrip (List.replicate n c ++ X) = dropTrailingWs (List.replicate n c ++ X) := by
  cases n with
  | zero => exact absurd rfl hn
  | succ m =>
    rw [List.replicate_succ, List.cons_append, pyStrip_cons_nonspace h,
        ← List.cons_append, ← List.replicate_succ]

theorem take_tC5_spec : tC5.take 4091 = fC5 ++ ['\n'] := by
  rw [tC5, List.take_append_eq_append_take, List.take_of_length_le (by rw [fC5_length]; omega),
      fC5_length]
  norm_num

theorem drop_tC5_spec : tC5.drop 4091 = h1C5 ++ '\n' :: (gC5 ++ '\n' :: h2C5) := by
  rw [tC5, List.drop_append_eq_append_drop, List.drop_of_length_le (by rw [fC5_length]; omega),
      fC5_length]
  norm_num

theorem strip_part1_spec : pyStrip (fC5 ++ ['\n']) = fC5 := by
  rw [show fC5 = List.replicate 4090 'y' from rfl,
      pyStrip_replicate_head (by decide) 4090 (by omega),
      dropTrailingWs_append_nl,
      show (List.replicate 4090 'y' : PyStr) = List.replicate 4089 'y' ++ ['y'] from by
        rw [show (4090 : Nat) = 4089 + 1 from rfl, List.replicate_succ'],
      dropTrailingWs_snoc (by decide)]

theorem strip_part2_spec :
    pyStrip (h1C5 ++ '\n' :: (gC5 ++ '\n' :: h2C5)) = h1C5 ++ '\n' :: (gC5 ++ '\n' :: h2C5) := by
  have hshape : h1C5 ++ '\n' :: (gC5 ++ '\n' :: h2C5) =
      ('1' :: ((". <b>A</b>".data : PyStr) ++ '\n' :: (gC5 ++ '\n' :: ("2. <b>B</b".data : PyStr))))
        ++ ['>'] := by
    rw [show h2C5 = ("2. <b>B</b".data : PyStr) ++ ['>'] from rfl]
    simp only [h1C5, List.cons_append, List.append_assoc, List.nil_append]
  rw [hshape]
  show pyStrip ('1' :: (((". <b>A</b>".data : PyStr) ++
      '\n' :: (gC5 ++ '\n' :: ("2. <b>B</b".data : PyStr))) ++ ['>'])) = _
  rw [pyStrip_cons_nonspace (by decide)]
  show dropTrailingWs (('1' :: ((". <b>A</b>".data : PyStr) ++
      '\n' :: (gC5 ++ '\n' :: ("2. <b>B</b".data : PyStr)))) ++ ['>']) = _
  rw [dropTrailingWs_snoc (by decide)]

def part1C5 : PyStr := fC5 ++ '\n' :: (h1C5 ++ '\n' :: gC5)

theorem part1C5_length : part1C5.length = 6103 := by
  simp only [part1C5, List.length_append, List.length_cons, fC5_length, gC5_length, h1C5_length]

theorem take_tC5_code : tC5.take 6104 = fC5 ++ '\n' :: (h1C5 ++ '\n' :: (gC5 ++ ['\n'])) := by
  rw [tC5, List.take_append_eq_append_take, List.take_of_length_le (by rw [fC5_length]; omega),
      fC5_length, show (6104 - 4090 : Nat) = 2013 + 1 from rfl, List.take_succ_cons,
      List.take_append_eq_append_take, List.take_of_length_le (by rw [h1C5_length]; omega),
      h1C5_length, show (2013 - 11 : Nat) = 2001 + 1 from rfl, List.take_succ_cons,
      List.take_append_eq_append_take, List.take_of_length_le (by rw [gC5_length]; omega),
      gC5_length, show (2001 - 2000 : Nat) = 0 + 1 from rfl, List.take_succ_cons, List.take_zero]

theorem drop_tC5_code : tC5.drop 6104 = h2C5 := by
  rw [tC5, List.drop_append_eq_append_drop, List.drop_of_length_le (by rw [fC5_length]; omega),
      fC5_length, List.nil_append, show (6104 - 4090 : Nat) = 2013 + 1 from rfl,
      List.drop_succ_cons,
      List.drop_append_eq_append_drop, List.drop_of_length_le (by rw [h1C5_length]; omega),
      h1C5_length, List.nil_append, show (2013 - 11 : Nat) = 2001 + 1 from rfl,
      List.drop_succ_cons,
      List.drop_append_eq_append_drop, List.drop_of_length_le (by rw [gC5_length]; omega),
      gC5_length, List.nil_append, show (2001 - 2000 : Nat) = 0 + 1 from rfl,
      List.drop_succ_cons, List.drop_zero]

theorem strip_part1_code :
    pyStrip (fC5 ++ '\n' :: (h1C5 ++ '\n' :: (gC5 ++ ['\n']))) = part1C5 := by
  have hshape : fC5 ++ '\n' :: (h1C5 ++ '\n' :: (gC5 ++ ['\n'])) = part1C5 ++ ['\n'] := by
    simp only [part1C5, List.cons_append, List.append_assoc]
  have hhead : ∀ X : PyStr, pyStrip (fC5 ++ X) = dropTrailingWs (fC5 ++ X) := by
    intro X
    rw [show fC5 = List.replicate 4090 'y' from rfl]
    exact pyStrip_replicate_head (by decide) 4090 (by omega) X
  have hsnoc : part1C5 = (fC5 ++ '\n' :: (h1C5 ++ '\n' :: List.replicate 1999 'y')) ++ ['y'] := by
    rw [part1C5, show gC5 = List.replicate 1999 'y' ++ ['y'] from by
      rw [gC5, show (2000 : Nat) = 1999 + 1 from rfl, List.replicate_succ']]
    simp only [List.cons_append, List.append_assoc]
  rw [hshape, part1C5, List.append_assoc, hhead, ← List.append_assoc, ← part1C5,
      dropTrailingWs_append_nl, hsnoc, dropTrailingWs_snoc (by decide), ← hsnoc]

theorem strip_part2_code : pyStrip h2C5 = h2C5 := by
  rw [show h2C5 = '2' :: ((". <b>B</".data : PyStr) ++ ['b', '>']) from rfl]
  rw [pyStrip_cons_nonspace (by decide)]
  show dropTrailingWs (('2' :: ((". <b>B</".data : PyStr) ++ ['b'])) ++ ['>']) = _
  rw [dropTrailingWs_snoc (by decide)]
  rfl

theorem nl_not_mem_fC5 : ¬ ('\n' ∈ fC5) := by
  intro h
  exact absurd (List.eq_of_mem_replicate h) (by decide)

theorem nl_not_mem_gC5 : ¬ ('\n' ∈ gC5) := by
  intro h
  exact absurd (List.eq_of_mem_replicate h) (by decide)

theorem splitNl_part1C5 : pySplitNl part1C5 = [fC5, h1C5, gC5] := by
  rw [part1C5, pySplitNl_append_nl nl_not_mem_fC5, pySplitNl_append_nl (by decide),
      pySplitNl_no_nl nl_not_mem_gC5]

theorem fC5_ne_nil : fC5 ≠ [] := by
  intro h
  have := congrArg List.length h
  rw [fC5_length] at this
  simp at this

theorem indexOf_h1C5 : ([fC5, h1C5, gC5] : List PyStr).indexOf h1C5 = 1 := by
  show List.findIdx (fun x => x == h1C5) [fC5, h1C5, gC5] = 1
  rw [List.findIdx_cons, List.findIdx_cons]
  rw [show (fC5 == h1C5) = false from by decide, show (h1C5 == h1C5) = true from by decide]
  rfl

theorem joinNl_part1C5 : joinNl [fC5, h1C5, gC5] = part1C5 := by
  rw [joinNl_cons₂, joinNl_cons₂, joinNl_single, part1C5]

theorem packLines_tC5 :
    packLines 4096 2 [fC5, h1C5, gC5] [] [] 0 [fC5, h1C5, gC5] =
      PackOut.broke [fC5] part1C5 := by
  rw [packLines, if_neg (by simp)]
  rw [packLines, if_pos (show (4096 < 0 + (fC5.length + 1) + (h1C5.length + 1) ∧
        (([] : List PyStr) ++ [fC5]) ≠ []) from by
      constructor
      · rw [fC5_length, h1C5_length]; omega
      · simp)]
  rw [if_pos (show 2 - 1 ≤ (([] : List PyStr) ++ [joinNl (([] : List PyStr) ++ [fC5])]).length
      from by simp)]
  rw [List.nil_append, List.nil_append, joinNl_single, indexOf_h1C5]
  rw [show List.drop 1 ([fC5, h1C5, gC5] : List PyStr) = [h1C5, gC5] from rfl]
  rw [show ([fC5] : List PyStr) ++ [h1C5, gC5] = [fC5, h1C5, gC5] from rfl, joinNl_part1C5]

theorem part1C5_ne_nil : part1C5 ≠ [] := by
  intro h
  have := congrArg List.length h
  rw [part1C5_length] at this
  simp at this

theorem split_message_tC5 :
    split_message tC5 4096 2 = [fC5, List.replicate 4046 'y' ++ TRUNC_MSG] := by
  rw [split_message, if_neg (by rw [tC5_length]; omega), topicMatches_tC5]
  rw [show splitOversized tC5 4096 2 [4091, 6104] = splitAtTopics tC5 4096 2 6104 [] from rfl]
  rw [splitAtTopics, show bestSplitPos tC5 6104 [] = 6104 from rfl]
  rw [take_tC5_code, drop_tC5_code, strip_part1_code, strip_part2_code]
  rw [splitTopicParts]
  rw [if_neg (show ¬ (part1C5.length ≤ 4096 ∧ h2C5.length ≤ 4096) from by
      rw [part1C5_length]; omega)]
  rw [if_pos (show 4096 < part1C5.length from by rw [part1C5_length]; omega)]
  rw [splitNl_part1C5, packResult, packLines_tC5]
  show finishParts 4096 2 tC5
      ([fC5], if part1C5 ≠ [] then part1C5 ++ '\n' :: h2C5 else h2C5) = _
  rw [if_pos part1C5_ne_nil, finishParts]
  rw [if_pos (show ([fC5] : List PyStr).length < 2 from by simp)]
  have hlen2 : (part1C5 ++ '\n' :: h2C5).length = 6115 := by
    rw [List.length_append, List.length_cons, part1C5_length, h2C5_length]
  rw [if_pos (show 4096 < ((part1C5 ++ '\n' :: h2C5) : PyStr).length from by
      rw [hlen2]; omega)]
  have htake : ((part1C5 ++ '\n' :: h2C5) : PyStr).take (4096 - 50) =
      List.replicate 4046 'y' := by
    rw [show (4096 - 50 : Nat) = 4046 from rfl, List.take_append_eq_append_take,
        part1C5_length, show (4046 - 6103 : Nat) = 0 from rfl, List.take_zero,
        List.append_nil, part1C5, List.take_append_eq_append_take, fC5_length,
        show (4046 - 4090 : Nat) = 0 from rfl, List.take_zero, List.append_nil,
        show fC5 = List.replicate 4090 'y' from rfl, List.take_replicate]
    norm_num
  rw [htake, clampParts]
  rw [show (([fC5], part1C5 ++ '\n' :: h2C5).1 : List PyStr) = [fC5] from rfl]
  rw [show ([fC5] : List PyStr) ++ [List.replicate 4046 'y' ++ TRUNC_MSG] =
      [fC5, List.replicate 4046 'y' ++ TRUNC_MSG] from rfl]
  rw [if_neg (List.cons_ne_nil _ _)]
  rfl

/-- Counterexample to claim C5 as stated: the boundary closest to the
midpoint of `tC5` is its *first* boundary 4091, and cutting there would give
two fitting chunks, yet `split_message` does not return that cut — the loop
of lines 204-215 never considers the first boundary. -/
theorem TRUNC_MSG_length : TRUNC_MSG.length = 61 := rfl

theorem specClosestBoundary_cons (t : PyStr) (b : Nat) (bs : List Nat)
    (h : topicMatches t = b :: bs) :
    specClosestBoundary t = some (bs.foldl
      (fun best pos =>
        if natDist pos (t.length / 2) < natDist best (t.length / 2) then pos else best) b) := by
  unfold specClosestBoundary
  rw [h]

theorem lenA_tC5 : (List.replicate 4046 'y' ++ TRUNC_MSG : PyStr).length = 4107 := by
  rw [List.length_append, List.length_replicate, TRUNC_MSG_length]

theorem lenB_tC5 : (h1C5 ++ '\n' :: (gC5 ++ '\n' :: h2C5) : PyStr).length = 2024 := by
  rw [List.length_append, List.length_cons, List.length_append, List.length_cons,
      h1C5_length, gC5_length, h2C5_length]

theorem c5_counterexample :
    4096 < tC5.length ∧
    specClosestBoundary tC5 = some 4091 ∧
    (pyStrip (tC5.take 4091)).length ≤ 4096 ∧
    (pyStrip (tC5.drop 4091)).length ≤ 4096 ∧
    split_message tC5 4096 2 ≠ [pyStrip (tC5.take 4091), pyStrip (tC5.drop 4091)] := by
  have hp2len : (pyStrip (tC5.drop 4091)).length = 2024 := by
    rw [drop_tC5_spec, strip_part2_spec, lenB_tC5]
  refine ⟨by rw [tC5_length]; omega, ?_, ?_, ?_, ?_⟩
  · rw [specClosestBoundary_cons tC5 4091 [6104] topicMatches_tC5]
    rw [List.foldl_cons, List.foldl_nil, tC5_length]
    rw [if_neg (by decide)]
  · rw [take_tC5_spec, strip_part1_spec, fC5_length]; omega
  · rw [hp2len]; omega
  · intro h
    rw [split_message_tC5, take_tC5_spec, strip_part1_spec, drop_tC5_spec,
        strip_part2_spec] at h
    injection h with h1 h'
    injection h' with h2 h''
    have hlen := congrArg List.length h2
    rw [lenA_tC5, lenB_tC5] at hlen
    exact absurd hlen (by decide)

theorem foldlMin_mem (f : Nat → Nat) :
    ∀ (l : List Nat) (b : Nat),
      l.foldl (fun best pos => if f pos < f best then pos else best) b ∈ b :: l := by
  intro l
  induction l with
  | nil => intro b; simp
  | cons p r ih =>
    intro b
    rw [List.foldl_cons]
    rcases List.mem_cons.mp (ih (if f p < f b then p else b)) with h1 | h2
    · rw [h1]
      by_cases hc : f p < f b
      · rw [if_pos hc]; exact List.mem_cons_of_mem _ (List.mem_cons_self _ _)
      · rw [if_neg hc]; exact List.mem_cons_self _ _
    · exact List.mem_cons_of_mem _ (List.mem_cons_of_mem _ h2)

theorem foldlMin_le (f : Nat → Nat) :
    ∀ (l : List Nat) (b : Nat), ∀ q ∈ b :: l,
      f (l.foldl (fun best pos => if f pos < f best then pos else best) b) ≤ f q := by
  intro l
  induction l with
  | nil =>
    intro b q hq
    rcases List.mem_cons.mp hq with h | h
    · rw [List.foldl_nil, h]
    · cases h
  | cons p r ih =>
    intro b q hq
    rw [List.foldl_cons]
    have hble : f (if f p < f b then p else b) ≤ f b := by
      by_cases hc : f p < f b
      · rw [if_pos hc]; omega
      · rw [if_neg hc]
    have hple : f (if f p < f b then p else b) ≤ f p := by
      by_cases hc : f p < f b
      · rw [if_pos hc]
      · rw [if_neg hc]; omega
    have hbase := ih (if f p < f b then p else b) _ (List.mem_cons_self _ _)
    rcases List.mem_cons.mp hq with h | h
    · exact le_trans hbase (h ▸ hble)
    · rcases List.mem_cons.mp h with h' | h'
      · exact le_trans hbase (h' ▸ hple)
      · exact ih _ q (List.mem_cons_of_mem _ h')

/-- Claim C5 as amended: the cut point is the earliest minimizer of the
distance to the character midpoint among the boundary matches *excluding the
first one*; when both stripped parts of that cut fit within 4096 characters
they are returned as exactly the two chunks. -/
theorem c5_cut_rule (text : PyStr) (m0 m1 : Nat) (ms : List Nat)
    (hlen : 4096 < text.length) (hm : topicMatches text = m0 :: m1 :: ms) :
    bestSplitPos text m1 ms ∈ m1 :: ms ∧
    (∀ q ∈ m1 :: ms,
      natDist (bestSplitPos text m1 ms) (text.length / 2) ≤ natDist q (text.length / 2)) ∧
    ((pyStrip (text.take (bestSplitPos text m1 ms))).length ≤ 4096 →
      (pyStrip (text.drop (bestSplitPos text m1 ms))).length ≤ 4096 →
      split_message text 4096 2 =
        [pyStrip (text.take (bestSplitPos text m1 ms)),
         pyStrip (text.drop (bestSplitPos text m1 ms))]) := by
  refine ⟨?_, ?_, ?_⟩
  · rw [bestSplitPos]
    exact foldlMin_mem (fun x => natDist x (text.length / 2)) ms m1
  · intro q hq
    rw [bestSplitPos]
    exact foldlMin_le (fun x => natDist x (text.length / 2)) ms m1 q hq
  · intro h1 h2
    rw [split_message, if_neg (by omega), hm]
    rw [show splitOversized text 4096 2 (m0 :: m1 :: ms) =
        splitAtTopics text 4096 2 m1 ms from rfl]
    rw [splitAtTopics, splitTopicParts, if_pos ⟨h1, h2⟩]

def gW : PyStr := List.replicate 2200 'y'

def tW5 : PyStr := h1C5 ++ '\n' :: (gW ++ '\n' :: (h2C5 ++ '\n' :: gC5))

theorem gW_length : gW.length = 2200 := by rw [gW, List.length_replicate]

theorem tW5_length : tW5.length = 4225 := by
  simp only [tW5, List.length_append, List.length_cons, gW_length, gC5_length,
    h1C5_length, h2C5_length]

theorem topicMatches_tW5 : topicMatches tW5 = [0, 2213] := by
  rw [topicMatches]
  calc topicMatchesAux tW5 0 true
      = 0 :: topicMatchesAux ((". <b>A</b>".data : PyStr) ++
          '\n' :: (gW ++ '\n' :: (h2C5 ++ '\n' :: gC5))) 1 false := by
        rw [show tW5 = '1' :: ((". <b>A</b>".data : PyStr) ++
          '\n' :: (gW ++ '\n' :: (h2C5 ++ '\n' :: gC5))) from rfl]
        rw [topicMatchesAux_cons_true_match (by decide)]
        rfl
    _ = 0 :: topicMatchesAux ('\n' :: (gW ++ '\n' :: (h2C5 ++ '\n' :: gC5))) 11 false := by
        rw [topicMatchesAux_seg (by decide)]
        rfl
    _ = 0 :: topicMatchesAux (gW ++ '\n' :: (h2C5 ++ '\n' :: gC5)) 12 true := by
        rw [topicMatchesAux_cons_false]
        rfl
    _ = 0 :: topicMatchesAux ('\n' :: (h2C5 ++ '\n' :: gC5)) 2212 false := by
        rw [show (gW : PyStr) = List.replicate 2200 'y' from rfl,
          topicMatchesAux_replicate_true (by decide) (by decide) 2200 _ 12 (by omega)]
    _ = 0 :: topicMatchesAux (h2C5 ++ '\n' :: gC5) 2213 true := by
        rw [topicMatchesAux_cons_false]
        rfl
    _ = 0 :: 2213 :: topicMatchesAux ((". <b>B</b>".data : PyStr) ++ '\n' :: gC5)
          2214 false := by
        rw [show h2C5 ++ '\n' :: gC5 =
          '2' :: ((". <b>B</b>".data : PyStr) ++ '\n' :: gC5) from rfl]
        rw [topicMatchesAux_cons_true_match (by decide)]
        rfl
    _ = 0 :: 2213 :: topicMatchesAux ('\n' :: gC5) 2224 false := by
        rw [topicMatchesAux_seg (by decide)]
        rfl
    _ = 0 :: 2213 :: topicMatchesAux gC5 2225 true := by
        rw [topicMatchesAux_cons_false]
        rfl
    _ = [0, 2213] := by
        rw [show (gC5 : PyStr) = List.replicate 2000 'y' ++ ([] : PyStr) from by
          simp only [gC5, List.append_nil]]
        rw [topicMatchesAux_replicate_true (by decide) (by decide) 2000 _ 2225 (by omega)]
        rfl

theorem take_tW5 : tW5.take 2213 = h1C5 ++ '\n' :: (gW ++ ['\n']) := by
  rw [tW5, List.take_append_eq_append_take, List.take_of_length_le (by rw [h1C5_length]; omega),
      h1C5_length, show (2213 - 11 : Nat) = 2201 + 1 from rfl, List.take_succ_cons,
      List.take_append_eq_append_take, List.take_of_length_le (by rw [gW_length]; omega),
      gW_length, show (2201 - 2200 : Nat) = 0 + 1 from rfl, List.take_succ_cons, List.take_zero]

theorem drop_tW5 : tW5.drop 2213 = h2C5 ++ '\n' :: gC5 := by
  rw [tW5, List.drop_append_eq_append_drop, List.drop_of_length_le (by rw [h1C5_length]; omega),
      h1C5_length, List.nil_append, show (2213 - 11 : Nat) = 2201 + 1 from rfl,
      List.drop_succ_cons,
      List.drop_append_eq_append_drop, List.drop_of_length_le (by rw [gW_length]; omega),
      gW_length, List.nil_append, show (2201 - 2200 : Nat) = 0 + 1 from rfl,
      List.drop_succ_cons, List.drop_zero]

theorem strip_take_tW5 : pyStrip (tW5.take 2213) = h1C5 ++ '\n' :: gW := by
  rw [take_tW5]
  have hshape : h1C5 ++ '\n' :: (gW ++ ['\n']) = (h1C5 ++ '\n' :: gW) ++ ['\n'] := by
    simp only [List.cons_append, List.append_assoc]
  have hsnoc : h1C5 ++ '\n' :: gW = (h1C5 ++ '\n' :: List.replicate 2199 'y') ++ ['y'] := by
    rw [show gW = List.replicate 2199 'y' ++ ['y'] from by
      rw [gW, show (2200 : Nat) = 2199 + 1 from rfl, List.replicate_succ']]
    simp only [List.cons_append, List.append_assoc]
  rw [hshape]
  show pyStrip ('1' :: (((". <b>A</b>".data : PyStr) ++ '\n' :: gW) ++ ['\n'])) = _
  rw [pyStrip_cons_nonspace (by decide)]
  show dropTrailingWs ((h1C5 ++ '\n' :: gW) ++ ['\n']) = _
  rw [dropTrailingWs_append_nl, hsnoc, dropTrailingWs_snoc (by decide), ← hsnoc]

theorem strip_drop_tW5 : pyStrip (tW5.drop 2213) = h2C5 ++ '\n' :: gC5 := by
  rw [drop_tW5]
  have hsnoc : h2C5 ++ '\n' :: gC5 = (h2C5 ++ '\n' :: List.replicate 1999 'y') ++ ['y'] := by
    rw [show gC5 = List.replicate 1999 'y' ++ ['y'] from by
      rw [gC5, show (2000 : Nat) = 1999 + 1 from rfl, List.replicate_succ']]
    simp only [List.cons_append, List.append_assoc]
  rw [hsnoc]
  show pyStrip ('2' :: (((". <b>B</b>".data : PyStr) ++ '\n' :: List.replicate 1999 'y')
      ++ ['y'])) = _
  rw [pyStrip_cons_nonspace (by decide)]
  show dropTrailingWs ((h2C5 ++ '\n' :: List.replicate 1999 'y') ++ ['y']) = _
  rw [dropTrailingWs_snoc (by decide)]

theorem part1W_fits : (pyStrip (tW5.take 2213)).length ≤ 4096 := by
  rw [strip_take_tW5, List.length_append, List.length_cons, h1C5_length, gW_length]
  omega

theorem part2W_fits : (pyStrip (tW5.drop 2213)).length ≤ 4096 := by
  rw [strip_drop_tW5, List.length_append, List.length_cons, h2C5_length, gC5_length]
  omega

/-- Witness instantiating the amended C5 claim: on `tW5` both parts at the
chosen cut fit, and the splitter returns exactly that cut. -/
theorem c5_cut_rule_witness :
    split_message tW5 4096 2 = [pyStrip (tW5.take 2213), pyStrip (tW5.drop 2213)] := by
  have hb : bestSplitPos tW5 2213 [] = 2213 := by rw [bestSplitPos, List.foldl_nil]
  have h := (c5_cut_rule tW5 0 2213 [] (by rw [tW5_length]; omega) topicMatches_tW5).2.2
  rw [hb] at h
  exact h part1W_fits part2W_fits

/-!
## Narrative generation (`topic_analyzer.py` lines 159-650)

The external LLM service is modelled by an environment: `SessionSt.pending`
lists the outcomes of the successive `chat.completions.create` calls, in call
order, and `quotaExceeded` is the module-global `_openai_quota_exceeded`
flag.  A `reply` outcome carries the completion text *after* the regex
cleanup passes applied to it by the source (lines 338-382 and 627-640):
those passes are pure text-to-text rewriting of the external reply and do
not touch the breaker flag or the tier choice, which are what the claims
below are about.  The Python module-level constants `USE_OPENAI_SUMMARY`,
`OPENAI_AVAILABLE`, `OPENAI_API_KEY` and `SUMY_AVAILABLE` are the `Cfg`
record.
-/

/-- Module configuration flags. -/
structure Cfg where
  useOpenaiSummary : Bool
  openaiAvailable : Bool
  hasOpenaiKey : Bool
  sumyAvailable : Bool

/-- Outcome of one external LLM call. -/
inductive ApiOutcome where
  | reply : PyStr → ApiOutcome
  | quotaError : ApiOutcome
  | otherError : ApiOutcome
  deriving DecidableEq

/-- `_openai_quota_exceeded` plus the pending external outcomes. -/
structure SessionSt where
  quotaExceeded : Bool
  pending : List ApiOutcome
  deriving DecidableEq

/-- Consume the next external call outcome. -/
def nextOutcome : SessionSt → ApiOutcome × SessionSt
  | ⟨q, []⟩ => (ApiOutcome.otherError, ⟨q, []⟩)
  | ⟨q, o :: rest⟩ => (o, ⟨q, rest⟩)

/-- `_openai_quota_exceeded = True`. -/
def tripBreaker (st : SessionSt) : SessionSt := ⟨true, st.pending⟩

/-- `str.strip('"\'')`. -/
def isQuoteCh (c : Char) : Bool := c = '"' ∨ c = '\''

/-- `topic_name.strip('"\'')` (line 477). -/
def stripQuotes (s : PyStr) : PyStr :=
  ((s.dropWhile isQuoteCh).reverse.dropWhile isQuoteCh).reverse

/-- `generate_topic_name` (lines 439-487): guarded by the config flags and
the breaker; on a quota signal from the service it trips the breaker and
returns `None`; on success it strips whitespace and quotes and returns the
name if non-empty. -/
def generate_topic_name (cfg : Cfg) (topicMessages : List (PyStr × PyStr))
    (st : SessionSt) : Option PyStr × SessionSt :=
  if ¬ (cfg.useOpenaiSummary ∧ cfg.openaiAvailable ∧ cfg.hasOpenaiKey) ∨
      st.quotaExceeded then (none, st)
  else if topicMessages = [] then (none, st)
  else
    match nextOutcome st with
    | (ApiOutcome.reply s, st') =>
      (if stripQuotes (pyStrip s) = [] then none else some (stripQuotes (pyStrip s)), st')
    | (ApiOutcome.quotaError, st') => (none, tripBreaker st')
    | (ApiOutcome.otherError, st') => (none, st')

/-- `generate_topic_narrative` (lines 597-650): note that this guard does
*not* include `USE_OPENAI_SUMMARY` (line 600). -/
def generate_topic_narrative (cfg : Cfg) (_topic _topicMessages _firstMention : PyStr)
    (_participantCount : Nat) (st : SessionSt) : Option PyStr × SessionSt :=
  if ¬ (cfg.openaiAvailable ∧ cfg.hasOpenaiKey) ∨ st.quotaExceeded then (none, st)
  else
    match nextOutcome st with
    | (ApiOutcome.reply s, st') => (some (pyStrip s), st')
    | (ApiOutcome.quotaError, st') => (none, tripBreaker st')
    | (ApiOutcome.otherError, st') => (none, st')

/-!
### The marker-stripping regex substitutions (lines 285-287, 557-559)
-/

/-- Non-overlapping left-to-right `re.sub`: `m` returns the length of the
match starting at the head of its argument, if any.  All the patterns used
below match at least one character; a hypothetical zero-length match is
skipped to keep the recursion well-founded. -/
def reSub (m : PyStr → Option Nat) (repl : PyStr) : PyStr → PyStr
  | [] => []
  | c :: r =>
    match m (c :: r) with
    | some (k + 1) => repl ++ reSub m repl ((c :: r).drop (k + 1))
    | _ => c :: reSub m repl r
  termination_by l => l.length
  decreasing_by
    · simp only [List.length_drop, List.length_cons]
      omega
    · simp only [List.length_cons]
      omega

/-- `r'[-•*]\s+'`. -/
def matchBulletMarker : PyStr → Option Nat
  | c :: r =>
    if c = '-' ∨ c = '•' ∨ c = '*' then
      if (r.takeWhile isSpaceCh) = [] then none
      else some (1 + (r.takeWhile isSpaceCh).length)
    else none
  | [] => none

/-- `r'\d+\.\s+'`. -/
def matchNumberDot (l : PyStr) : Option Nat :=
  if (l.takeWhile isDigitCh) = [] then none
  else
    match l.drop (l.takeWhile isDigitCh).length with
    | '.' :: r =>
      if (r.takeWhile isSpaceCh) = [] then none
      else some ((l.takeWhile isDigitCh).length + 1 + (r.takeWhile isSpaceCh).length)
    | _ => none

/-- `r'[a-z]\)\s+'`. -/
def matchLetterParen : PyStr → Option Nat
  | c :: ')' :: r =>
    if 'a' ≤ c ∧ c ≤ 'z' then
      if (r.takeWhile isSpaceCh) = [] then none
      else some (2 + (r.takeWhile isSpaceCh).length)
    else none
  | _ => none

/-- `r'🎯\s*[^(]*\([^)]*\)[^.]*\.?\s*'`; since whitespace is not `(`, the
leading `\s*[^(]*` jointly consume the maximal run of non-`(` characters. -/
def matchTargetParen : PyStr → Option Nat
  | c :: r =>
    if c = '🎯' then
      match r.drop (r.takeWhile (fun x => x ≠ '(')).length with
      | '(' :: r2 =>
        match r2.drop (r2.takeWhile (fun x => x ≠ ')')).length with
        | ')' :: r3 =>
          match r3.drop (r3.takeWhile (fun x => x ≠ '.')).length with
          | '.' :: r4 =>
            some (1 + (r.takeWhile (fun x => x ≠ '(')).length + 1 +
              (r2.takeWhile (fun x => x ≠ ')')).length + 1 +
              (r3.takeWhile (fun x => x ≠ '.')).length + 1 +
              (r4.takeWhile isSpaceCh).length)
          | _ =>
            some (1 + (r.takeWhile (fun x => x ≠ '(')).length + 1 +
              (r2.takeWhile (fun x => x ≠ ')')).length + 1 +
              (r3.takeWhile (fun x => x ≠ '.')).length)
        | _ => none
      | _ => none
    else none
  | [] => none

/-- `r'🎯\s*[^:]*:\s*'`; as above `\s*[^:]*` jointly consume the maximal run
of non-`:` characters. -/
def matchTargetColon : PyStr → Option Nat
  | c :: r =>
    if c = '🎯' then
      match r.drop (r.takeWhile (fun x => x ≠ ':')).length with
      | ':' :: r2 => some (1 + (r.takeWhile (fun x => x ≠ ':')).length + 1 +
          (r2.takeWhile isSpaceCh).length)
      | _ => none
    else none
  | [] => none

/-- `' '.join(s.split())` — collapse whitespace runs. -/
def collapseWs (s : PyStr) : PyStr := joinSp (pySplitWs s)

/-- `narrative_text[:500] + '...'` when over 500 characters. -/
def truncate500 (s : PyStr) : PyStr :=
  if 500 < s.length then s.take 500 ++ "...".data else s

/-- Deterministic narrative built inside `generate_openai_detailed_summary`
(lines 280-289): strip and filter the member texts, join the first five,
collapse whitespace, strip list markers, truncate to 500 characters. -/
def openaiFallbackNarrative (allTopicTexts : List PyStr) : Option PyStr :=
  if (allTopicTexts.map pyStrip).filter (fun m => 15 < m.length) = [] then none
  else
    some (truncate500
      (reSub matchLetterParen [' ']
        (reSub matchNumberDot [' ']
          (reSub matchBulletMarker [' ']
            (collapseWs (joinSp (((allTopicTexts.map pyStrip).filter
              (fun m => 15 < m.length)).take 5)))))))

/-- Deterministic narrative of `generate_simple_fallback_summary`
(lines 548-563): as above but stripping stray topic headers instead of
list markers, with a final strip. -/
def simpleFallbackNarrative (allTopicTexts : List PyStr) : Option PyStr :=
  if (allTopicTexts.map pyStrip).filter (fun m => 15 < m.length) = [] then none
  else
    some (truncate500
      (pyStrip
        (reSub matchTargetColon []
          (reSub matchTargetParen []
            (collapseWs (joinSp (((allTopicTexts.map pyStrip).filter
              (fun m => 15 < m.length)).take 5)))))))

/-!
### The lead-in invariant (lines 292-295 and 566-569)
-/

/-- The recognized lead-in prefixes (line 294 / 568). -/
def leadInPrefixes : List PyStr :=
  ["в цій темі", "в цій", "обговорювали", "говорили", "розмовляли"].map String.data

/-- `narrative_text.lower().strip().startswith(prefix)` for one of the
recognized prefixes. -/
def startsWithLeadIn (narrative : PyStr) : Bool :=
  leadInPrefixes.any (fun p => p.isPrefixOf (pyStrip (pyLower narrative)))

/-- Lines 293-295 / 567-569: prepend a synthesized lead-in sentence naming
the topic when the narrative does not already start with one. -/
def ensureLeadIn (displayTopic narrative : PyStr) : PyStr :=
  if startsWithLeadIn narrative then narrative
  else ("В цій темі обговорювали ".data ++ pyLower displayTopic ++ ". ".data) ++ narrative

/-!
### Per-topic blocks of the two topic-loop paths
-/

/-- One rendered topic entry: header data plus the narrative text. -/
structure TopicBlock where
  index : Nat
  display : PyStr
  firstMention : PyStr
  participants : Nat
  narrative : PyStr
  memberCount : Nat

/-- Build one block; the narrative always passes through `ensureLeadIn`. -/
def mkTopicBlock (idx : Nat) (display firstMention : PyStr) (participants : Nat)
    (narr : PyStr) (memberCount : Nat) : TopicBlock :=
  ⟨idx, display, firstMention, participants, ensureLeadIn display narr, memberCount⟩

/-- `narrative_text` after the fallback of lines 280-289 / 548-563: the
service reply if any, otherwise the deterministic narrative. -/
def chooseNarr (primary fallback : Option PyStr) : Option PyStr :=
  match primary with
  | some n => some n
  | none => fallback

/-- Lines 291-305 / 565-580: append one block when a narrative was
produced; the topic index and state advance either way. -/
def stepAssemble (acc : List TopicBlock × Nat × SessionSt) (display fm : PyStr)
    (pc : Nat) (narrOpt : Option PyStr) (mc : Nat) (st1 : SessionSt) :
    List TopicBlock × Nat × SessionSt :=
  match narrOpt with
  | none => (acc.1, acc.2.1 + 1, st1)
  | some narr =>
    (acc.1 ++ [mkTopicBlock (acc.2.1 + 1) display fm pc narr mc], acc.2.1 + 1, st1)

/-- One iteration of the topic loop of `generate_openai_detailed_summary`
(lines 249-305): the accumulator is `(blocks, topic_index, state)`.
`topic_index` is incremented only for tuple-valued entries with members
(line 253). -/
def openaiBlocksStep (cfg : Cfg) (acc : List TopicBlock × Nat × SessionSt)
    (entry : PyStr × GroupData) : List TopicBlock × Nat × SessionSt :=
  match entry.2 with
  | GroupData.ungrouped => acc
  | GroupData.grouped firstMention mems =>
    if mems = [] then acc
    else
      let r1 := if ¬ acc.2.2.quotaExceeded
        then generate_topic_name cfg mems acc.2.2 else (none, acc.2.2)
      let display := match r1.1 with
        | some n => n
        | none => pyCapitalize entry.1
      let r2 := if ¬ r1.2.quotaExceeded
        then generate_topic_narrative cfg display (joinNl (mems.map Prod.snd))
          firstMention (counterKeys (mems.map Prod.fst)).length r1.2
        else (none, r1.2)
      stepAssemble acc display firstMention (counterKeys (mems.map Prod.fst)).length
        (chooseNarr r2.1 (openaiFallbackNarrative (mems.map Prod.snd))) mems.length r2.2

/-- The topic loop of `generate_openai_detailed_summary` over the first 8
topic groups. -/
def openaiDetailedBlocks (cfg : Cfg) (messages : List (PyStr × PyStr × PyStr))
    (st : SessionSt) : List TopicBlock × SessionSt :=
  ((group_messages_by_topic messages (analyze_topics messages)).take 8).foldl
    (openaiBlocksStep cfg) ([], 0, st)
    |> fun r => (r.1, r.2.2)

/-- Lines 297-305: render one block of the OpenAI path. -/
def renderOpenaiBlock (b : TopicBlock) : List PyStr :=
  [pyNat b.index ++ ". <b>".data ++ b.display ++ "</b> (підняв: <b>".data ++
     b.firstMention ++ "</b>, учасників: ".data ++ pyNat b.participants ++ ")".data,
   "   ".data ++ b.narrative] ++
  (if 5 < b.memberCount then
     ["   <i>... та ще ".data ++ pyNat (b.memberCount - 5) ++
       " повідомлень про цю тему</i>".data]
   else []) ++
  ([] :: [[]] : List PyStr)

/-- `while result_lines and result_lines[-1] == "": result_lines.pop()`. -/
def dropTrailingEmpties (l : List PyStr) : List PyStr :=
  (l.reverse.dropWhile (fun s => s = [])).reverse

/-- The one external call of the "old method" (lines 313-392): truncate the
input, send one completion request, clean the reply; a quota signal trips
the breaker and yields `""`. -/
def openaiOldMethod (st : SessionSt) : PyStr × SessionSt :=
  match nextOutcome st with
  | (ApiOutcome.reply s, st') => (pyStrip s, st')
  | (ApiOutcome.quotaError, st') => ([], tripBreaker st')
  | (ApiOutcome.otherError, st') => ([], st')

/-- `generate_openai_detailed_summary` (lines 235-392). -/
def generate_openai_detailed_summary (cfg : Cfg)
    (messages : List (PyStr × PyStr × PyStr)) (st : SessionSt) : PyStr × SessionSt :=
  if ¬ (cfg.openaiAvailable ∧ cfg.hasOpenaiKey) ∨ st.quotaExceeded then ([], st)
  else if messages ≠ [] ∧ analyze_topics messages ≠ [] then
    if ((openaiDetailedBlocks cfg messages st).1.map renderOpenaiBlock).flatten ≠ [] then
      (joinNl (dropTrailingEmpties
        (((openaiDetailedBlocks cfg messages st).1.map renderOpenaiBlock).flatten)),
       (openaiDetailedBlocks cfg messages st).2)
    else openaiOldMethod (openaiDetailedBlocks cfg messages st).2
  else openaiOldMethod st

/-- One iteration of the topic loop of `generate_simple_fallback_summary`
(lines 514-587); unlike the OpenAI path, `topic_index` is incremented for
every entry (line 515), and the name/narrative calls are additionally
guarded by `USE_OPENAI_SUMMARY` (lines 526, 541). -/
def fallbackBlocksStep (cfg : Cfg) (acc : List TopicBlock × Nat × SessionSt)
    (entry : PyStr × GroupData) : List TopicBlock × Nat × SessionSt :=
  match entry.2 with
  | GroupData.ungrouped => (acc.1, acc.2.1 + 1, acc.2.2)
  | GroupData.grouped firstMention mems =>
    if mems = [] then (acc.1, acc.2.1 + 1, acc.2.2)
    else
      let r1 := if cfg.useOpenaiSummary ∧ cfg.openaiAvailable ∧ cfg.hasOpenaiKey ∧
          ¬ acc.2.2.quotaExceeded
        then generate_topic_name cfg mems acc.2.2 else (none, acc.2.2)
      let display := match r1.1 with
        | some n => n
        | none => pyCapitalize entry.1
      let r2 := if cfg.useOpenaiSummary ∧ cfg.openaiAvailable ∧ cfg.hasOpenaiKey ∧
          ¬ r1.2.quotaExceeded
        then generate_topic_narrative cfg display (joinNl (mems.map Prod.snd))
          firstMention (counterKeys (mems.map Prod.fst)).length r1.2
        else (none, r1.2)
      stepAssemble acc display firstMention (counterKeys (mems.map Prod.fst)).length
        (chooseNarr r2.1 (simpleFallbackNarrative (mems.map Prod.snd))) mems.length r2.2

/-- The topic loop of `generate_simple_fallback_summary` over the first 8
topic groups. -/
def simpleFallbackBlocks (cfg : Cfg) (messages : List (PyStr × PyStr × PyStr))
    (st : SessionSt) : List TopicBlock × SessionSt :=
  ((group_messages_by_topic messages (analyze_topics messages)).take 8).foldl
    (fallbackBlocksStep cfg) ([], 0, st)
    |> fun r => (r.1, r.2.2)

/-- Lines 571-580: render one block of the fallback path (an extra blank
line precedes each header). -/
def renderFallbackBlock (b : TopicBlock) : List PyStr :=
  [[], pyNat b.index ++ ". <b>".data ++ b.display ++ "</b> (підняв: <b>".data ++
     b.firstMention ++ "</b>, учасників: ".data ++ pyNat b.participants ++ ")".data,
   "   ".data ++ b.narrative] ++
  (if 5 < b.memberCount then
     ["   <i>... та ще ".data ++ pyNat (b.memberCount - 5) ++
       " повідомлень про цю тему</i>".data]
   else []) ++
  ([] :: [[]] : List PyStr)

/-- Lines 498-506: the no-topics path lists the first ten messages with
300-character snippets. -/
def noTopicsSummary (messages : List (PyStr × PyStr × PyStr)) : PyStr :=
  joinNl ("📋 <b>Детальний зміст обговорення:</b>".data :: [] ::
    (messages.take 10).enum.map (fun p =>
      pyNat (p.1 + 1) ++ ". <b>".data ++ p.2.2.1 ++ "</b>: ".data ++
        (if 300 < p.2.2.2.length then p.2.2.2.take 300 ++ "...".data else p.2.2.2)))

/-- `generate_simple_fallback_summary` (lines 490-594). -/
def generate_simple_fallback_summary (cfg : Cfg)
    (messages : List (PyStr × PyStr × PyStr)) (st : SessionSt) : PyStr × SessionSt :=
  if messages = [] then ([], st)
  else if analyze_topics messages = [] then (noTopicsSummary messages, st)
  else
    if ((simpleFallbackBlocks cfg messages st).1.map renderFallbackBlock).flatten ≠ [] then
      (joinNl (dropTrailingEmpties
        (((simpleFallbackBlocks cfg messages st).1.map renderFallbackBlock).flatten)),
       (simpleFallbackBlocks cfg messages st).2)
    else ([], (simpleFallbackBlocks cfg messages st).2)

/-!
### The sumy tier (`generate_sumy_detailed_summary`, lines 395-436)

The external sumy summarizer (lines 402-410) is an oracle: `sentences` is
the list `summary_sentences` it returns.  Line 413 then calls
`analyze_topics([("", text)])` — a list of **2-tuples**, while
`analyze_topics` unpacks each element as a 3-tuple (line 83), so on any
non-empty argument the call raises `ValueError`, which the blanket
`except` of line 434 turns into `""`.
-/

/-- The `ValueError` raised by 3-way unpacking of a 2-tuple. -/
inductive PyUnpackError where
  | valueError : PyUnpackError

/-- `analyze_topics` as called on a list of *pairs* (line 413): the empty
check of line 78 passes an empty list through, and the `for user_id,
username, message_text in messages` header of line 83 fails to unpack any
pair. -/
def analyze_topics_pairs (messages : List (PyStr × PyStr)) :
    Except PyUnpackError (List (PyStr × Nat)) :=
  if messages = [] then Except.ok []
  else Except.error PyUnpackError.valueError

/-- `generate_sumy_detailed_summary` (lines 395-436): `sentences` is the
external summarizer's sentence list.  The topic grouping of lines 413-429
is in the same `try` block as the failing unpack, so the whole body
collapses to `""`. -/
def generate_sumy_detailed_summary (cfg : Cfg) (sentences : List PyStr)
    (text : PyStr) : PyStr :=
  if cfg.sumyAvailable = false then []
  else
    match analyze_topics_pairs [([], text)] with
    | Except.error _ => []
    | Except.ok topics =>
      if topics ≠ [] ∧
          (topics.take 8).filterMap (fun p =>
            if sentences.filter (fun s => pyLower p.1 <:+: pyLower s) = [] then none
            else some ("🎯 <b>".data ++ pyCapitalize p.1 ++ "</b>: ".data ++
              joinSp ((sentences.filter (fun s => pyLower p.1 <:+: pyLower s)).take 4))) ≠ []
        then
        joinNl ((topics.take 8).filterMap (fun p =>
          if sentences.filter (fun s => pyLower p.1 <:+: pyLower s) = [] then none
          else some ("🎯 <b>".data ++ pyCapitalize p.1 ++ "</b>: ".data ++
            joinSp ((sentences.filter (fun s => pyLower p.1 <:+: pyLower s)).take 4))))
      else pyStrip (joinSp sentences)

/-!
### `generate_text_summary` (lines 159-208)
-/

/-- Which narrative strategy produced the final text. -/
inductive NarrativeTier where
  | llm : NarrativeTier
  | extractive : NarrativeTier
  | deterministic : NarrativeTier
  | nothing : NarrativeTier
  deriving DecidableEq

/-- Lines 190-208: after the OpenAI attempt `r`, fall back to sumy and then
to the deterministic summary. -/
def sumyOrFallback (cfg : Cfg) (sentences : List PyStr)
    (messages : List (PyStr × PyStr × PyStr)) (r : PyStr × SessionSt) :
    Option PyStr × NarrativeTier × SessionSt :=
  if r.1 ≠ [] then (some r.1, NarrativeTier.llm, r.2)
  else if cfg.sumyAvailable ∧
      generate_sumy_detailed_summary cfg sentences
        (joinNl (messages.map (fun m => m.2.2))) ≠ [] then
    (some (generate_sumy_detailed_summary cfg sentences
       (joinNl (messages.map (fun m => m.2.2)))),
     NarrativeTier.extractive, r.2)
  else
    (some (generate_simple_fallback_summary cfg messages r.2).1,
     NarrativeTier.deterministic,
     (generate_simple_fallback_summary cfg messages r.2).2)

/-- `generate_text_summary` (lines 159-208).  The tier component records
which strategy produced the result. -/
def generate_text_summary (cfg : Cfg) (sentences : List PyStr)
    (messages : List (PyStr × PyStr × PyStr)) (st : SessionSt) :
    Option PyStr × NarrativeTier × SessionSt :=
  if messages = [] then (none, NarrativeTier.nothing, st)
  else if (joinNl (messages.map (fun m => m.2.2))).length < 50 then
    (none, NarrativeTier.nothing, st)
  else
    sumyOrFallback cfg sentences messages
      (if cfg.useOpenaiSummary ∧ cfg.openaiAvailable ∧ cfg.hasOpenaiKey ∧
          ¬ st.quotaExceeded
       then generate_openai_detailed_summary cfg messages st
       else ([], st))

/-!
## The daily-summary assembler (`summary.py` lines 60-186)

External data enters as parameters: `dateStr` is
`target_date.strftime('%d.%m.%Y')`, `dateLabel` the line-81 label, `stats`
the database rows of `get_daily_stats`, `faceitOn`/`hasLinks` the line
92/94 guards, `eloChanges` the `(nick, elo, diff)` list built by the
network loop of lines 95-110, and `fmtTime` stands for
`fmt_duration(estimate_seconds(msg_count, char_count))` (line 85-87),
whose float arithmetic is opaque here.  Only the returned text is
modelled; the session state threaded through `generate_text_summary` is
internal to the call.
-/

/-- `html.escape` with `quote=True` (line 84, 115). -/
def htmlEscape (s : PyStr) : PyStr :=
  s.flatMap (fun c =>
    if c = '&' then "&amp;".data
    else if c = '<' then "&lt;".data
    else if c = '>' then "&gt;".data
    else if c = '"' then "&quot;".data
    else if c = '\'' then "&#x27;".data
    else [c])

/-- Lines 80-89: the top-users section. -/
def statsSection (fmtTime : Nat → Nat → PyStr) (dateLabel : PyStr)
    (stats : List (PyStr × Nat × Nat)) : List PyStr :=
  if stats = [] then []
  else
    ("🏆 <b>Топ активних користувачів за ".data ++ dateLabel ++ "</b>".data) ::
      ((stats.take 10).enum.map (fun p =>
        pyNat (p.1 + 1) ++ ". ".data ++ htmlEscape p.2.1 ++ ": <b>".data ++
          pyNat p.2.2.1 ++ "</b> повідомлень, ≈ <b>".data ++
          fmtTime p.2.2.1 p.2.2.2 ++ "</b>".data)) ++ [[]]

/-- `f"+{diff}" if diff > 0 else str(diff)` (line 116). -/
def diffTxt (d : Int) : PyStr := if 0 < d then '+' :: pyInt d else pyInt d

/-- Lines 92-118: the FACEIT Elo section; line 114 sorts by `abs(diff)`
descending (Python's stable sort). -/
def eloSection (faceitOn hasLinks : Bool) (eloChanges : List (PyStr × Int × Int)) :
    List PyStr :=
  if faceitOn ∧ hasLinks ∧ eloChanges ≠ [] then
    "🎮 <b>Зміни FACEIT Elo:</b>".data ::
      ((stableSortDescBy (fun x => x.2.2.natAbs) eloChanges).map (fun x =>
        "• ".data ++ htmlEscape x.1 ++ ": <b>".data ++ pyInt x.2.1 ++ "</b> (".data ++
          diffTxt x.2.2 ++ ")".data)) ++ [[]]
  else []

/-- Lines 128-137: the detailed-topics section is added only when there is
at least one message and the text summary is truthy (not `None`, not `""`). -/
def detailedSectionLines (messages : List (PyStr × PyStr × PyStr))
    (textSummary : Option PyStr) : List PyStr :=
  if 1 ≤ messages.length then
    match textSummary with
    | some s =>
      if s = [] then []
      else [[], "📝 <b>Детальний зміст обговорення:</b>".data, [], s]
    | none => []
  else []

/-!
### The mention counter (lines 142-172)

The four patterns of lines 152-157 all start with `\b` and a literal
Cyrillic stem, so a match can only begin where the previous character is
not a word character.  `re.findall` scans left to right, counts
non-overlapping matches, and resumes one character later after a failed
attempt and at the match end after a successful one; the scanners below
carry the needed one-character lookbehind as a `prev`-is-word-character
flag (`false` at the string start, which is a boundary).  In the root
patterns the starred class `[а-яіїє]` contains only word characters, so
backtracking the greedy star can never make the trailing `\b` succeed at a
shorter run: the maximal-run scanner is exact.
-/

/-- The suffix class `[а-яіїє]` of the root patterns (lines 155-156). -/
def isSufCh (c : Char) : Bool :=
  (0x430 ≤ c.val.toNat ∧ c.val.toNat ≤ 0x44F) ∨ c = 'і' ∨ c = 'ї' ∨ c = 'є'

/-- `\b` after a stem: the next character, if any, is not a word
character. -/
def noWordHead : PyStr → Bool
  | [] => true
  | c :: _ => ¬ isWordCh c

/-- The stem `м[єе]нт` of lines 153 and 155: consume it, return the rest. -/
def matchMent : PyStr → Option PyStr
  | a :: b :: c :: d :: r =>
    if a = 'м' ∧ (b = 'е' ∨ b = 'є') ∧ c = 'н' ∧ d = 'т' then some r else none
  | _ => none

/-- The stem `мусор` of lines 154 and 156. -/
def matchMusor : PyStr → Option PyStr
  | a :: b :: c :: d :: e :: r =>
    if a = 'м' ∧ b = 'у' ∧ c = 'с' ∧ d = 'о' ∧ e = 'р' then some r else none
  | _ => none

/-- Count the matches of `\b<stem>\b` (patterns 1-2 of line 152). -/
def scanExact (m : PyStr → Option PyStr)
    (hm : ∀ l r, m l = some r → r.length < l.length) : Bool → PyStr → Nat
  | _, [] => 0
  | true, c :: rest => scanExact m hm (isWordCh c) rest
  | false, c :: rest =>
    match h : m (c :: rest) with
    | some r =>
      if noWordHead r then 1 + scanExact m hm true r
      else scanExact m hm (isWordCh c) rest
    | none => scanExact m hm (isWordCh c) rest
  termination_by _ l => l.length
  decreasing_by
    · simp only [List.length_cons]; omega
    · exact hm _ _ h
    · simp only [List.length_cons]; omega
    · simp only [List.length_cons]; omega

/-- Count the matches of `\b<stem>[а-яіїє]*\b` (patterns 3-4). -/
def scanRoot (m : PyStr → Option PyStr)
    (hm : ∀ l r, m l = some r → r.length < l.length) : Bool → PyStr → Nat
  | _, [] => 0
  | true, c :: rest => scanRoot m hm (isWordCh c) rest
  | false, c :: rest =>
    match h : m (c :: rest) with
    | some r =>
      if noWordHead (r.dropWhile isSufCh) then
        1 + scanRoot m hm true (r.dropWhile isSufCh)
      else scanRoot m hm (isWordCh c) rest
    | none => scanRoot m hm (isWordCh c) rest
  termination_by _ l => l.length
  decreasing_by
    · simp only [List.length_cons]; omega
    · exact Nat.lt_of_le_of_lt ((List.dropWhile_sublist isSufCh).length_le) (hm _ _ h)
    · simp only [List.length_cons]; omega
    · simp only [List.length_cons]; omega

theorem matchMent_shrink : ∀ l r, matchMent l = some r → r.length < l.length := by
  intro l r h
  match l with
  | [] => cases h
  | [a] => cases h
  | [a, b] => cases h
  | [a, b, c] => cases h
  | a :: b :: c :: d :: t =>
    rw [matchMent] at h
    split at h
    · cases h; simp only [List.length_cons]; omega
    · cases h

theorem matchMusor_shrink : ∀ l r, matchMusor l = some r → r.length < l.length := by
  intro l r h
  match l with
  | [] => cases h
  | [a] => cases h
  | [a, b] => cases h
  | [a, b, c] => cases h
  | [a, b, c, d] => cases h
  | a :: b :: c :: d :: e :: t =>
    rw [matchMusor] at h
    split at h
    · cases h; simp only [List.length_cons]; omega
    · cases h

/-- The `mention_count` accumulated by lines 146-163: each message is
lowercased and all four patterns are counted on it. -/
def mention_count (messages : List (PyStr × PyStr × PyStr)) : Nat :=
  (messages.map (fun msg =>
    scanExact matchMent matchMent_shrink false (pyLower msg.2.2) +
    scanExact matchMusor matchMusor_shrink false (pyLower msg.2.2) +
    scanRoot matchMent matchMent_shrink false (pyLower msg.2.2) +
    scanRoot matchMusor matchMusor_shrink false (pyLower msg.2.2))).sum

/-- Lines 168-170: the counter line is added when there are messages and at
least one match. -/
def mentionSection (messages : List (PyStr × PyStr × PyStr)) : List PyStr :=
  if messages ≠ [] ∧ 0 < mention_count messages then
    [[], ("🔢 <b>Мєнт счьотчік:</b> @LeOnid_CHINANEN був згаданий як \"мєнт\" <b>".data ++
      pyNat (mention_count messages) ++ "</b> разів".data)]
  else []

/-!
### Assembling the document (lines 67, 179-186)
-/

/-- Lines 179-183: append the no-data placeholder when only the header and
its blank line are present, then the closing lines. -/
def finishLines (l : List PyStr) : List PyStr :=
  (if l.length = 2 then l ++ ["ℹ️ Поки немає даних за сьогодні.".data] else l) ++
    [[], "💬 Гарного дня! 🚀".data]

/-- The line list of `generate_daily_summary`. -/
def summaryLines (cfg : Cfg) (fmtTime : Nat → Nat → PyStr) (sentences : List PyStr)
    (dateStr dateLabel : PyStr) (stats : List (PyStr × Nat × Nat))
    (faceitOn hasLinks : Bool) (eloChanges : List (PyStr × Int × Int))
    (messages : List (PyStr × PyStr × PyStr)) (st : SessionSt) : List PyStr :=
  finishLines (("📊 <b>Щоденний звіт</b> — ".data ++ dateStr) :: [] ::
    (statsSection fmtTime dateLabel stats ++
     eloSection faceitOn hasLinks eloChanges ++
     detailedSectionLines messages (generate_text_summary cfg sentences messages st).1 ++
     mentionSection messages))

/-- `generate_daily_summary` (lines 60-186). -/
def generate_daily_summary (cfg : Cfg) (fmtTime : Nat → Nat → PyStr)
    (sentences : List PyStr) (dateStr dateLabel : PyStr)
    (stats : List (PyStr × Nat × Nat)) (faceitOn hasLinks : Bool)
    (eloChanges : List (PyStr × Int × Int))
    (messages : List (PyStr × PyStr × PyStr)) (st : SessionSt) : PyStr :=
  joinNl (summaryLines cfg fmtTime sentences dateStr dateLabel stats faceitOn
    hasLinks eloChanges messages st)

/-!
## C10: the exact patterns are double-counted by the root patterns
-/

theorem scanExact_nil (m : PyStr → Option PyStr)
    (hm : ∀ l r, m l = some r → r.length < l.length) (prev : Bool) :
    scanExact m hm prev [] = 0 := by
  cases prev <;> simp [scanExact]

theorem scanExact_cons_true (m : PyStr → Option PyStr)
    (hm : ∀ l r, m l = some r → r.length < l.length) (c : Char) (rest : PyStr) :
    scanExact m hm true (c :: rest) = scanExact m hm (isWordCh c) rest := by
  simp [scanExact]

theorem scanExact_cons_false_some (m : PyStr → Option PyStr)
    (hm : ∀ l r, m l = some r → r.length < l.length) (c : Char) (rest r : PyStr)
    (h : m (c :: rest) = some r) :
    scanExact m hm false (c :: rest) =
      if noWordHead r then 1 + scanExact m hm true r
      else scanExact m hm (isWordCh c) rest := by
  simp only [scanExact]
  split
  · next r' heq => rw [h] at heq; cases heq; rfl
  · next heq => rw [h] at heq; cases heq

theorem scanExact_cons_false_none (m : PyStr → Option PyStr)
    (hm : ∀ l r, m l = some r → r.length < l.length) (c : Char) (rest : PyStr)
    (h : m (c :: rest) = none) :
    scanExact m hm false (c :: rest) = scanExact m hm (isWordCh c) rest := by
  simp only [scanExact]
  split
  · next r' heq => rw [h] at heq; cases heq
  · rfl

theorem scanRoot_nil (m : PyStr → Option PyStr)
    (hm : ∀ l r, m l = some r → r.length < l.length) (prev : Bool) :
    scanRoot m hm prev [] = 0 := by
  cases prev <;> simp [scanRoot]

theorem scanRoot_cons_true (m : PyStr → Option PyStr)
    (hm : ∀ l r, m l = some r → r.length < l.length) (c : Char) (rest : PyStr) :
    scanRoot m hm true (c :: rest) = scanRoot m hm (isWordCh c) rest := by
  simp [scanRoot]

theorem scanRoot_cons_false_some (m : PyStr → Option PyStr)
    (hm : ∀ l r, m l = some r → r.length < l.length) (c : Char) (rest r : PyStr)
    (h : m (c :: rest) = some r) :
    scanRoot m hm false (c :: rest) =
      if noWordHead (r.dropWhile isSufCh) then
        1 + scanRoot m hm true (r.dropWhile isSufCh)
      else scanRoot m hm (isWordCh c) rest := by
  simp only [scanRoot]
  split
  · next r' heq => rw [h] at heq; cases heq; rfl
  · next heq => rw [h] at heq; cases heq

theorem scanRoot_cons_false_none (m : PyStr → Option PyStr)
    (hm : ∀ l r, m l = some r → r.length < l.length) (c : Char) (rest : PyStr)
    (h : m (c :: rest) = none) :
    scanRoot m hm false (c :: rest) = scanRoot m hm (isWordCh c) rest := by
  simp only [scanRoot]
  split
  · next r' heq => rw [h] at heq; cases heq
  · rfl

/-- Every character of the starred class is a word character; this is what
makes the root patterns strictly more liberal than the exact ones. -/
theorem isSufCh_isWordCh {c : Char} (h : isSufCh c = true) : isWordCh c = true := by
  simp only [isSufCh, decide_eq_true_eq] at h
  simp only [isWordCh, decide_eq_true_eq]
  rcases h with ⟨h1, h2⟩ | h | h | h
  · exact Or.inr (Or.inr ⟨by omega, by omega⟩)
  · subst h; decide
  · subst h; decide
  · subst h; decide

/-- Scanning a run of word characters with the boundary flag down finds
nothing and leaves the flag down. -/
theorem scanExact_skip_word (m : PyStr → Option PyStr)
    (hm : ∀ l r, m l = some r → r.length < l.length) :
    ∀ (w s : PyStr), (∀ ch ∈ w, isWordCh ch = true) →
      scanExact m hm true (w ++ s) = scanExact m hm true s := by
  intro w
  induction w with
  | nil => intro s _; rfl
  | cons c t ih =>
    intro s hw
    rw [List.cons_append, scanExact_cons_true, hw c (List.mem_cons_self c t)]
    exact ih s (fun x hx => hw x (List.mem_cons_of_mem _ hx))

/-- Core inequality: wherever the exact pattern matches, the root pattern
matches the same word, and the root pattern can also match words the exact
one does not; counted left to right the root pattern finds at least as
many matches. -/
theorem scanExact_le_scanRoot (m : PyStr → Option PyStr)
    (hm : ∀ l r, m l = some r → r.length < l.length)
    (hw : ∀ l r, m l = some r →
      ∃ p, p ≠ [] ∧ (∀ ch ∈ p, isWordCh ch = true) ∧ l = p ++ r) :
    ∀ (n : Nat) (l : PyStr) (prev : Bool), l.length ≤ n →
      scanExact m hm prev l ≤ scanRoot m hm prev l := by
  intro n
  induction n with
  | zero =>
    intro l prev hl
    have hnil : l = [] := List.length_eq_zero.mp (Nat.le_zero.mp hl)
    subst hnil
    rw [scanExact_nil, scanRoot_nil]
  | succ n ih =>
    intro l prev hl
    match l, prev with
    | [], _ => rw [scanExact_nil, scanRoot_nil]
    | c :: rest, true =>
      rw [scanExact_cons_true, scanRoot_cons_true]
      exact ih rest _ (by simp only [List.length_cons] at hl; omega)
    | c :: rest, false =>
      have hrest : rest.length ≤ n := by
        simp only [List.length_cons] at hl; omega
      cases hmc : m (c :: rest) with
      | none =>
        rw [scanExact_cons_false_none m hm c rest hmc,
            scanRoot_cons_false_none m hm c rest hmc]
        exact ih rest _ hrest
      | some r =>
        have hrlen : r.length < (c :: rest).length := hm _ _ hmc
        rw [scanExact_cons_false_some m hm c rest r hmc,
            scanRoot_cons_false_some m hm c rest r hmc]
        by_cases hb : noWordHead r = true
        · have hdrop : r.dropWhile isSufCh = r := by
            cases r with
            | nil => rfl
            | cons x xs =>
              rw [List.dropWhile_cons, if_neg]
              intro hsuf
              simp only [noWordHead, decide_eq_true_eq] at hb
              exact hb (isSufCh_isWordCh hsuf)
          rw [if_pos hb, hdrop, if_pos hb]
          have hr : r.length ≤ n := by
            simp only [List.length_cons] at hrlen; omega
          exact Nat.add_le_add_left (ih r true hr) 1
        · rw [if_neg hb]
          by_cases hb2 : noWordHead (r.dropWhile isSufCh) = true
          · rw [if_pos hb2]
            obtain ⟨p, hpne, hpw, hpeq⟩ := hw _ _ hmc
            match p, hpne, hpeq with
            | p0 :: ptail, _, hpeq =>
              rw [List.cons_append] at hpeq
              have hc0 : c = p0 := (List.cons.injEq _ _ _ _ ▸ hpeq).1
              have hrest_eq : rest = ptail ++ r := (List.cons.injEq _ _ _ _ ▸ hpeq).2
              have hcw : isWordCh c = true := by
                rw [hc0]; exact hpw p0 (List.mem_cons_self _ _)
              rw [hcw, hrest_eq, scanExact_skip_word m hm ptail r
                    (fun x hx => hpw x (List.mem_cons_of_mem _ hx))]
              have hsplit : r = r.takeWhile isSufCh ++ r.dropWhile isSufCh :=
                (List.takeWhile_append_dropWhile isSufCh r).symm
              rw [show scanExact m hm true r =
                    scanExact m hm true (r.dropWhile isSufCh) from by
                  conv_lhs => rw [hsplit]
                  exact scanExact_skip_word m hm _ _
                    (fun x hx => isSufCh_isWordCh (List.mem_takeWhile_imp hx))]
              have hdlen : (r.dropWhile isSufCh).length ≤ n := by
                have := (List.dropWhile_sublist (l := r) isSufCh).length_le
                simp only [List.length_cons] at hrlen; omega
              have := ih (r.dropWhile isSufCh) true hdlen
              omega
          · rw [if_neg hb2]
            exact ih rest _ hrest

/-- A successful `м[єе]нт` stem consists of word characters. -/
theorem matchMent_shape : ∀ l r, matchMent l = some r →
    ∃ p, p ≠ [] ∧ (∀ ch ∈ p, isWordCh ch = true) ∧ l = p ++ r := by
  intro l r h
  match l with
  | [] => cases h
  | [a] => cases h
  | [a, b] => cases h
  | [a, b, c] => cases h
  | a :: b :: c :: d :: t =>
    rw [matchMent] at h
    split at h
    · next hc =>
      cases h
      obtain ⟨ha, hb, hc3, hd⟩ := hc
      refine ⟨[a, b, c, d], by simp, ?_, by simp⟩
      intro ch hch
      subst ha; subst hc3; subst hd
      simp only [List.mem_cons, List.not_mem_nil, or_false] at hch
      rcases hch with h1 | h1 | h1 | h1
      · subst h1; decide
      · subst h1; rcases hb with hb | hb <;> (subst hb; decide)
      · subst h1; decide
      · subst h1; decide
    · cases h

/-- A successful `мусор` stem consists of word characters. -/
theorem matchMusor_shape : ∀ l r, matchMusor l = some r →
    ∃ p, p ≠ [] ∧ (∀ ch ∈ p, isWordCh ch = true) ∧ l = p ++ r := by
  intro l r h
  match l with
  | [] => cases h
  | [a] => cases h
  | [a, b] => cases h
  | [a, b, c] => cases h
  | [a, b, c, d] => cases h
  | a :: b :: c :: d :: e :: t =>
    rw [matchMusor] at h
    split at h
    · next hc =>
      cases h
      obtain ⟨ha, hb, hc3, hd, he⟩ := hc
      refine ⟨[a, b, c, d, e], by simp, ?_, by simp⟩
      intro ch hch
      subst ha; subst hb; subst hc3; subst hd; subst he
      simp only [List.mem_cons, List.not_mem_nil, or_false] at hch
      rcases hch with h1 | h1 | h1 | h1 | h1 <;> (subst h1; decide)
    · cases h

/-- C10: in the mention counter of `generate_daily_summary` every exact-word
occurrence of `мент`/`мєнт`/`мусор` is also matched by the corresponding
word-root pattern (whose starred suffix may be empty), so the reported
mention count is at least twice the number of exact-word occurrences. -/
theorem c10_mentions_double_counted (messages : List (PyStr × PyStr × PyStr)) :
    2 * (messages.map (fun msg =>
        scanExact matchMent matchMent_shrink false (pyLower msg.2.2) +
        scanExact matchMusor matchMusor_shrink false (pyLower msg.2.2))).sum ≤
      mention_count messages := by
  induction messages with
  | nil => rw [mention_count]; simp
  | cons msg rest ih =>
    rw [mention_count] at ih ⊢
    simp only [List.map_cons, List.sum_cons] at ih ⊢
    have h1 := scanExact_le_scanRoot matchMent matchMent_shrink matchMent_shape
      (pyLower msg.2.2).length (pyLower msg.2.2) false le_rfl
    have h2 := scanExact_le_scanRoot matchMusor matchMusor_shrink matchMusor_shape
      (pyLower msg.2.2).length (pyLower msg.2.2) false le_rfl
    omega

/-!
## C6: every emitted topic narrative starts with a recognized lead-in
-/

theorem pyStrip_eq_dropTrailing (s : PyStr) :
    pyStrip s = dropTrailingWs (s.dropWhile isSpaceCh) := rfl

theorem dropTrailingWs_ne_nil {c : Char} {l : PyStr} (hc : c ∈ l)
    (hcs : isSpaceCh c = false) : dropTrailingWs l ≠ [] := by
  intro h
  rw [dropTrailingWs, List.reverse_eq_nil_iff] at h
  have := List.dropWhile_eq_nil_iff.mp h c (List.mem_reverse.mpr hc)
  rw [hcs] at this
  cases this

theorem dropTrailingWs_append_of_ne_nil (a : PyStr) {b : PyStr}
    (hb : dropTrailingWs b ≠ []) :
    dropTrailingWs (a ++ b) = a ++ dropTrailingWs b := by
  have hb' : ¬ (b.reverse.dropWhile isSpaceCh).isEmpty = true := by
    intro h
    exact hb (by rw [dropTrailingWs, List.isEmpty_iff.mp h, List.reverse_nil])
  rw [dropTrailingWs, List.reverse_append, List.dropWhile_append, if_neg hb',
      List.reverse_append, List.reverse_reverse, dropTrailingWs]

/-- The synthesized lead-in sentence of lines 295/569 itself starts with the
first recognized prefix, whatever the topic and narrative texts are. -/
theorem startsWithLeadIn_ensureLeadIn (d n : PyStr) :
    startsWithLeadIn (ensureLeadIn d n) = true := by
  rw [ensureLeadIn]
  split
  · assumption
  · rw [startsWithLeadIn, List.any_eq_true]
    refine ⟨"в цій темі".data, by decide, ?_⟩
    rw [ List.isPrefixOf_iff_prefix]
    have hlow : pyLower (("В цій темі обговорювали ".data ++ pyLower d ++ ". ".data) ++ n) =
        "в цій темі обговорювали ".data ++
          (pyLower (pyLower d) ++ ('.' :: ' ' :: pyLower n)) := by
      rw [pyLower, List.map_append, List.map_append, List.map_append]
      rw [show List.map pyLowerChar "В цій темі обговорювали ".data =
            "в цій темі обговорювали ".data from by decide]
      rw [List.append_assoc]
      rfl
    rw [hlow, pyStrip_eq_dropTrailing]
    rw [List.dropWhile_append,
        show List.dropWhile isSpaceCh "в цій темі обговорювали ".data =
          "в цій темі обговорювали ".data from by decide,
        if_neg (by decide)]
    rw [dropTrailingWs_append_of_ne_nil _
          (dropTrailingWs_ne_nil
            (List.mem_append_right _ (List.mem_cons_self '.' _)) (by decide))]
    exact ⟨" обговорювали ".data ++
        dropTrailingWs (pyLower (pyLower d) ++ ('.' :: ' ' :: pyLower n)),
      by rw [← List.append_assoc]; rfl⟩

/-- A fold step preserves a predicate it respects. -/
theorem foldl_preserves {α β : Type} (P : α → Prop) (f : α → β → α)
    (hf : ∀ a b, P a → P (f a b)) :
    ∀ (l : List β) (a : α), P a → P (l.foldl f a) := by
  intro l
  induction l with
  | nil => intro a ha; exact ha
  | cons x xs ih => intro a ha; exact ih _ (hf a x ha)

theorem stepAssemble_leadIn (acc : List TopicBlock × Nat × SessionSt)
    (display fm : PyStr) (pc : Nat) (narrOpt : Option PyStr) (mc : Nat)
    (st1 : SessionSt) (h : ∀ b ∈ acc.1, startsWithLeadIn b.narrative = true) :
    ∀ b ∈ (stepAssemble acc display fm pc narrOpt mc st1).1,
      startsWithLeadIn b.narrative = true := by
  intro b hb
  cases narrOpt with
  | none => exact h b hb
  | some narr =>
    rw [stepAssemble] at hb
    simp only [List.mem_append, List.mem_singleton] at hb
    rcases hb with hb | hb
    · exact h b hb
    · subst hb
      exact startsWithLeadIn_ensureLeadIn _ _

theorem openaiBlocksStep_leadIn (cfg : Cfg) (acc : List TopicBlock × Nat × SessionSt)
    (e : PyStr × GroupData) (h : ∀ b ∈ acc.1, startsWithLeadIn b.narrative = true) :
    ∀ b ∈ (openaiBlocksStep cfg acc e).1, startsWithLeadIn b.narrative = true := by
  rcases e with ⟨t, d⟩
  cases d with
  | ungrouped => exact h
  | grouped fm mems =>
    by_cases hm0 : mems = []
    · simp only [openaiBlocksStep, if_pos hm0]
      exact h
    · simp only [openaiBlocksStep, if_neg hm0]
      exact stepAssemble_leadIn _ _ _ _ _ _ _ h

theorem fallbackBlocksStep_leadIn (cfg : Cfg) (acc : List TopicBlock × Nat × SessionSt)
    (e : PyStr × GroupData) (h : ∀ b ∈ acc.1, startsWithLeadIn b.narrative = true) :
    ∀ b ∈ (fallbackBlocksStep cfg acc e).1, startsWithLeadIn b.narrative = true := by
  rcases e with ⟨t, d⟩
  cases d with
  | ungrouped => exact h
  | grouped fm mems =>
    by_cases hm0 : mems = []
    · simp only [fallbackBlocksStep, if_pos hm0]
      exact h
    · simp only [fallbackBlocksStep, if_neg hm0]
      exact stepAssemble_leadIn _ _ _ _ _ _ _ h

/-- C6: every topic block emitted by either topic-loop path carries a
narrative that starts with a recognized lead-in phrase, regardless of
whether the narrative came from the LLM service or from a deterministic
fallback; and the sumy tier never emits a topic narrative at all (its
summary is always empty). -/
theorem c6_narratives_have_lead_in (cfg : Cfg) (sentences : List PyStr)
    (msgs : List (PyStr × PyStr × PyStr)) (text : PyStr) (st : SessionSt) :
    (∀ b ∈ (openaiDetailedBlocks cfg msgs st).1, startsWithLeadIn b.narrative = true) ∧
    (∀ b ∈ (simpleFallbackBlocks cfg msgs st).1, startsWithLeadIn b.narrative = true) ∧
    generate_sumy_detailed_summary cfg sentences text = [] := by
  refine ⟨?_, ?_, ?_⟩
  · exact foldl_preserves
      (fun acc => ∀ b ∈ acc.1, startsWithLeadIn b.narrative = true)
      (openaiBlocksStep cfg)
      (fun a e ha => openaiBlocksStep_leadIn cfg a e ha)
      ((group_messages_by_topic msgs (analyze_topics msgs)).take 8)
      ([], 0, st)
      (fun b hb => absurd hb (List.not_mem_nil b))
  · exact foldl_preserves
      (fun acc => ∀ b ∈ acc.1, startsWithLeadIn b.narrative = true)
      (fallbackBlocksStep cfg)
      (fun a e ha => fallbackBlocksStep_leadIn cfg a e ha)
      ((group_messages_by_topic msgs (analyze_topics msgs)).take 8)
      ([], 0, st)
      (fun b hb => absurd hb (List.not_mem_nil b))
  · rw [generate_sumy_detailed_summary]
    split <;> rfl

/-!
## C2: a tripped breaker is permanent and forces the non-LLM tiers
-/

theorem stepAssemble_state (acc : List TopicBlock × Nat × SessionSt)
    (display fm : PyStr) (pc : Nat) (narrOpt : Option PyStr) (mc : Nat)
    (st1 : SessionSt) :
    (stepAssemble acc display fm pc narrOpt mc st1).2.2 = st1 := by
  cases narrOpt <;> rfl

theorem fallbackBlocksStep_state (cfg : Cfg) (acc : List TopicBlock × Nat × SessionSt)
    (e : PyStr × GroupData) (h : acc.2.2.quotaExceeded = true) :
    (fallbackBlocksStep cfg acc e).2.2 = acc.2.2 := by
  rcases e with ⟨t, d⟩
  cases d with
  | ungrouped => rfl
  | grouped fm mems =>
    by_cases hm0 : mems = []
    · simp only [fallbackBlocksStep, if_pos hm0]
    · simp [fallbackBlocksStep, if_neg hm0, h, stepAssemble_state]

theorem simpleFallbackBlocks_state (cfg : Cfg)
    (msgs : List (PyStr × PyStr × PyStr)) (st : SessionSt)
    (h : st.quotaExceeded = true) :
    (simpleFallbackBlocks cfg msgs st).2 = st :=
  foldl_preserves (fun acc : List TopicBlock × Nat × SessionSt => acc.2.2 = st)
    (fallbackBlocksStep cfg)
    (fun a e ha => by
      show (fallbackBlocksStep cfg a e).2.2 = st
      rw [fallbackBlocksStep_state cfg a e (by rw [ha]; exact h)]
      exact ha)
    ((group_messages_by_topic msgs (analyze_topics msgs)).take 8) ([], 0, st) rfl

theorem generate_simple_fallback_summary_state (cfg : Cfg)
    (msgs : List (PyStr × PyStr × PyStr)) (st : SessionSt)
    (h : st.quotaExceeded = true) :
    (generate_simple_fallback_summary cfg msgs st).2 = st := by
  rw [generate_simple_fallback_summary]
  split
  · rfl
  · split
    · rfl
    · split
      · exact simpleFallbackBlocks_state cfg msgs st h
      · exact simpleFallbackBlocks_state cfg msgs st h

/-- C2: once `_openai_quota_exceeded` is set, every narrative entry point
leaves it set and skips the LLM tier: the topic-name and topic-narrative
helpers return `None` without touching the service, the detailed OpenAI
summary returns `""` at its line-238 guard, and `generate_text_summary`
ends in the extractive or deterministic tier with the breaker still
tripped and the pending outcomes untouched. -/
theorem c2_breaker_is_permanent (cfg : Cfg) (sentences : List PyStr)
    (msgs : List (PyStr × PyStr × PyStr)) (mems : List (PyStr × PyStr))
    (topic text fm : PyStr) (pc : Nat) (pend : List ApiOutcome)
    (hne : msgs ≠ [])
    (hlen : ¬ (joinNl (msgs.map (fun m => m.2.2))).length < 50) :
    generate_topic_name cfg mems ⟨true, pend⟩ = (none, ⟨true, pend⟩) ∧
    generate_topic_narrative cfg topic text fm pc ⟨true, pend⟩ = (none, ⟨true, pend⟩) ∧
    generate_openai_detailed_summary cfg msgs ⟨true, pend⟩ = ([], ⟨true, pend⟩) ∧
    (generate_text_summary cfg sentences msgs ⟨true, pend⟩).2.2 = ⟨true, pend⟩ ∧
    ((generate_text_summary cfg sentences msgs ⟨true, pend⟩).2.1 = NarrativeTier.extractive ∨
     (generate_text_summary cfg sentences msgs ⟨true, pend⟩).2.1 = NarrativeTier.deterministic) := by
  have h1 : generate_topic_name cfg mems ⟨true, pend⟩ = (none, ⟨true, pend⟩) := by
    rw [generate_topic_name, if_pos (Or.inr rfl)]
  have h2 : generate_topic_narrative cfg topic text fm pc ⟨true, pend⟩ =
      (none, ⟨true, pend⟩) := by
    rw [generate_topic_narrative, if_pos (Or.inr rfl)]
  have h3 : generate_openai_detailed_summary cfg msgs ⟨true, pend⟩ = ([], ⟨true, pend⟩) := by
    rw [generate_openai_detailed_summary, if_pos (Or.inr rfl)]
  have hts : generate_text_summary cfg sentences msgs ⟨true, pend⟩ =
      sumyOrFallback cfg sentences msgs ([], ⟨true, pend⟩) := by
    rw [generate_text_summary, if_neg hne, if_neg hlen, if_neg (fun hc => hc.2.2.2 rfl)]
  rw [hts, sumyOrFallback, if_neg (fun hc => hc rfl)]
  by_cases hs : cfg.sumyAvailable = true ∧
      generate_sumy_detailed_summary cfg sentences
        (joinNl (msgs.map (fun m => m.2.2))) ≠ []
  · rw [if_pos hs]
    exact ⟨h1, h2, h3, rfl, Or.inl rfl⟩
  · rw [if_neg hs]
    exact ⟨h1, h2, h3,
      generate_simple_fallback_summary_state cfg msgs ⟨true, pend⟩ rfl,
      Or.inr rfl⟩

/-- Concrete data for the C2 witness. -/
def cfgW2 : Cfg := ⟨true, true, true, true⟩

/-- A single 60-character message, long enough for the length-50 gate. -/
def msgsW2 : List (PyStr × PyStr × PyStr) :=
  [("1".data, "ann".data, List.replicate 60 'a')]

theorem c2_breaker_is_permanent_witness :
    msgsW2 ≠ [] ∧ ¬ (joinNl (msgsW2.map (fun m => m.2.2))).length < 50 ∧
    (generate_topic_name cfgW2 [] ⟨true, []⟩ = (none, ⟨true, []⟩) ∧
     generate_topic_narrative cfgW2 [] [] [] 0 ⟨true, []⟩ = (none, ⟨true, []⟩) ∧
     generate_openai_detailed_summary cfgW2 msgsW2 ⟨true, []⟩ = ([], ⟨true, []⟩) ∧
     (generate_text_summary cfgW2 [] msgsW2 ⟨true, []⟩).2.2 = ⟨true, []⟩ ∧
     ((generate_text_summary cfgW2 [] msgsW2 ⟨true, []⟩).2.1 = NarrativeTier.extractive ∨
      (generate_text_summary cfgW2 [] msgsW2 ⟨true, []⟩).2.1 = NarrativeTier.deterministic)) :=
  ⟨by decide, by decide,
   c2_breaker_is_permanent cfgW2 [] msgsW2 [] [] [] [] 0 [] (by decide) (by decide)⟩

/-!
## C8 and C9: empty and too-short inputs
-/

/-- C8: with no stats, no Elo changes and no messages, the assembled daily
summary is exactly the header, the no-data placeholder and the closing
line — the empty input renders as a placeholder document rather than an
error or an empty body. -/
theorem c8_empty_input_placeholder (cfg : Cfg) (fmtTime : Nat → Nat → PyStr)
    (sentences : List PyStr) (dateStr dateLabel : PyStr) (faceitOn hasLinks : Bool)
    (st : SessionSt) :
    generate_daily_summary cfg fmtTime sentences dateStr dateLabel [] faceitOn
        hasLinks [] [] st =
      joinNl ["📊 <b>Щоденний звіт</b> — ".data ++ dateStr, [],
        "ℹ️ Поки немає даних за сьогодні.".data, [], "💬 Гарного дня! 🚀".data] := by
  simp [generate_daily_summary, summaryLines, statsSection, eloSection,
    detailedSectionLines, mentionSection, finishLines]

/-- C9: a non-empty message list whose newline-joined text is shorter than
50 characters makes `generate_text_summary` return `None` before any of
the three tiers runs (state untouched), and the caller then omits the
detailed-topics section. -/
theorem c9_short_text_no_section (cfg : Cfg) (sentences : List PyStr)
    (msgs : List (PyStr × PyStr × PyStr)) (st : SessionSt)
    (hne : msgs ≠ [])
    (hlen : (joinNl (msgs.map (fun m => m.2.2))).length < 50) :
    generate_text_summary cfg sentences msgs st = (none, NarrativeTier.nothing, st) ∧
    detailedSectionLines msgs (generate_text_summary cfg sentences msgs st).1 = [] := by
  have h1 : generate_text_summary cfg sentences msgs st =
      (none, NarrativeTier.nothing, st) := by
    rw [generate_text_summary, if_neg hne, if_pos hlen]
  refine ⟨h1, ?_⟩
  rw [h1, detailedSectionLines]
  split
  · rfl
  · rfl

theorem c9_short_text_no_section_witness :
    ([("1".data, "ann".data, "hi".data)] : List (PyStr × PyStr × PyStr)) ≠ [] ∧
    (joinNl (([("1".data, "ann".data, "hi".data)] :
        List (PyStr × PyStr × PyStr)).map (fun m => m.2.2))).length < 50 ∧
    (generate_text_summary ⟨true, true, true, true⟩ []
        [("1".data, "ann".data, "hi".data)] ⟨false, []⟩ =
          (none, NarrativeTier.nothing, ⟨false, []⟩) ∧
     detailedSectionLines [("1".data, "ann".data, "hi".data)]
        (generate_text_summary ⟨true, true, true, true⟩ []
          [("1".data, "ann".data, "hi".data)] ⟨false, []⟩).1 = []) :=
  ⟨by decide, by decide,
   c9_short_text_no_section ⟨true, true, true, true⟩ []
     [("1".data, "ann".data, "hi".data)] ⟨false, []⟩ (by decide) (by decide)⟩
